import Mathlib

/-!
# Switchboard sync-engine: verification of the core algorithms

A shallow embedding, in Lean 4, of the core of the Switchboard sync
orchestration engine (a TypeScript code base): the delta detector
(`src/utils/delta.ts`), the identity-mapping store helpers
(`src/db/client.ts`), the job queue (`src/core/queue.ts`), the batch
processor and sync-job lifecycle of the base handler
(`src/handlers/base.ts`), and the webhook signature / dispatch path
(`src/core/webhookServer.ts`, `src/integrations/shopify/webhooks.ts`).

Modelling conventions:
* TypeScript strings are `String`; `Map<string, string>` objects are
  association lists with unique keys; JS `Set<string>` is a duplicate-free
  list (membership-equivalent).
* JS numeric enum `JobPriority` (HIGH = 0, NORMAL = 1, LOW = 2) is `Nat`,
  compared numerically exactly as the code does.
* `async` functions that only read or write the database become pure
  functions over an explicit store/db state; a thrown exception becomes
  `Except String`.
* JS truthiness is modelled explicitly where the code branches on it
  (`if (shopifyId)` is false both for `undefined` and for `""`).
-/

namespace Switchboard

/-! ## Delta detector (`src/utils/delta.ts`) -/

/-- `mode` parameter of `detectDeltas`: `'sync' | 'overwrite'`. -/
inductive Mode where
  | sync
  | overwrite
deriving DecidableEq, Repr

/-- `SyncItem<T>` from `delta.ts`: `{ externalId, data, shopifyId? }`.
`shopifyId` is optional in the TS interface, hence `Option`. -/
structure SyncItem (T : Type) where
  externalId : String
  data : T
  shopifyId : Option String
deriving DecidableEq, Repr

/-- `DeltaResult<T>` from `delta.ts`. -/
structure DeltaResult (T : Type) where
  toCreate : List (SyncItem T)
  toUpdate : List (SyncItem T)
  toDelete : List String
  unchanged : Nat
deriving DecidableEq, Repr

/-- `Map<string, string>.get`: the managed-items map built by
`getManagedItems` has unique keys, so first-match lookup on the
underlying association list coincides with JS `Map.get`. -/
def mapGet (m : List (String × String)) (k : String) : Option String :=
  (m.find? (fun p => decide (p.1 = k))).map (·.2)

/-- JS truthiness of `string | undefined`: `undefined` and the empty
string are falsy, every other string is truthy.  This is the test the
code performs with `if (shopifyId)`. -/
def truthyStr : Option String → Bool
  | some s => decide (s ≠ "")
  | none => false

/-- JS `Set.add` on a list model: add the element only if absent
(membership-equivalent to a plain append, kept faithful to `Set`). -/
def setAdd (s : List String) (x : String) : List String :=
  if s.contains x then s else s ++ [x]

/-- The per-source-item loop body of `detectDeltas`: extract the
external id, record it in `sourceExternalIds`, and push the item onto
`toUpdate` (when `managedItems.get(externalId)` is truthy, carrying the
stored Shopify id) or onto `toCreate` (otherwise). -/
def classifyStep {T : Type} (managedItems : List (String × String)) (getExternalId : T → String)
    (acc : List (SyncItem T) × List (SyncItem T) × List String) (item : T) :
    List (SyncItem T) × List (SyncItem T) × List String :=
  let externalId := getExternalId item
  let ids := setAdd acc.2.2 externalId
  let shopifyId := mapGet managedItems externalId
  if truthyStr shopifyId then
    (acc.1, acc.2.1 ++ [⟨externalId, item, shopifyId⟩], ids)
  else
    (acc.1 ++ [⟨externalId, item, none⟩], acc.2.1, ids)

/-- `detectDeltas` from `delta.ts`, with the `managedItems` map (the
result of `getManagedItems(dataObject)`) passed in explicitly: classify
every source item as create or update, then, under `mode === 'sync'`,
collect every managed external id absent from the source id set into
`toDelete`; `unchanged` is returned as `0`. -/
def detectDeltas {T : Type} (managedItems : List (String × String)) (sourceItems : List T)
    (getExternalId : T → String) (mode : Mode) : DeltaResult T :=
  let acc := sourceItems.foldl (classifyStep managedItems getExternalId) ([], [], [])
  let toDelete :=
    match mode with
    | .sync => (managedItems.map (·.1)).filter (fun externalId => !acc.2.2.contains externalId)
    | .overwrite => []
  { toCreate := acc.1, toUpdate := acc.2.1, toDelete := toDelete, unchanged := 0 }

/-! ## Identity-mapping store (`src/db/client.ts`) -/

/-- One row of the `idMapping` table: `{dataObject, externalId, shopifyId}`. -/
structure IdMappingRow where
  dataObject : String
  externalId : String
  shopifyId : String
deriving DecidableEq, Repr

/-- The `idMapping` table, as the list of its rows. -/
abbrev MappingStore := List IdMappingRow

/-- `getShopifyId`: `findUnique` on the `dataObject_externalId` key. -/
def getShopifyIdOf (store : MappingStore) (dataObject externalId : String) : Option String :=
  (store.find? (fun r => decide (r.dataObject = dataObject ∧ r.externalId = externalId))).map
    (·.shopifyId)

/-- `getAllIdMappings` / `getManagedItems`: all `(externalId, shopifyId)`
pairs stored for one data object. -/
def getManagedItemsOf (store : MappingStore) (dataObject : String) : List (String × String) :=
  (store.filter (fun r => decide (r.dataObject = dataObject))).map fun r =>
    (r.externalId, r.shopifyId)

/-- `upsertIdMapping`: a Prisma `upsert` keyed on `(dataObject, externalId)`
that sets `shopifyId`.

Modelled from the spec: the Prisma schema file is not under `src/`; only
its callers are.  `client.ts` addresses the table through the composite
unique keys `dataObject_externalId` and `dataObject_shopifyId` (its
`findUnique` calls), and the spec requires that `upsert` "overwrites the
remoteId for that externalId" and "must not create a duplicate remoteId
mapping — implementations must reject or overwrite consistently".  The
schema's unique index on `(dataObject, shopifyId)` makes Prisma reject
(raise an error on) a create or update that would duplicate a
`shopifyId` within a kind; that rejection is modelled as `Except.error`,
leaving the store unchanged. -/
def upsertIdMapping (store : MappingStore) (dataObject externalId shopifyId : String) :
    Except String MappingStore :=
  if store.any (fun r => decide (r.dataObject = dataObject ∧ r.externalId = externalId)) then
    -- update path: overwrite the shopifyId of the row keyed (dataObject, externalId)
    if store.any (fun r => decide (r.dataObject = dataObject ∧ r.shopifyId = shopifyId ∧
        r.externalId ≠ externalId)) then
      Except.error "unique constraint violation on (dataObject, shopifyId)"
    else
      Except.ok (store.map fun r =>
        if r.dataObject = dataObject ∧ r.externalId = externalId then
          { r with shopifyId := shopifyId }
        else r)
  else
    -- create path: insert a fresh row
    if store.any (fun r => decide (r.dataObject = dataObject ∧ r.shopifyId = shopifyId)) then
      Except.error "unique constraint violation on (dataObject, shopifyId)"
    else
      Except.ok (store ++ [⟨dataObject, externalId, shopifyId⟩])

/-- `deleteIdMapping`: `deleteMany` on `{dataObject, externalId}`. -/
def deleteIdMapping (store : MappingStore) (dataObject externalId : String) : MappingStore :=
  store.filter fun r => !decide (r.dataObject = dataObject ∧ r.externalId = externalId)

/-- A mapping-store operation, as issued by the handlers. -/
inductive MapOp where
  | upsert (dataObject externalId shopifyId : String)
  | del (dataObject externalId : String)
deriving DecidableEq, Repr

/-- Apply one operation; a rejected upsert (unique-constraint error)
leaves the store unchanged. -/
def applyMapOp (store : MappingStore) : MapOp → MappingStore
  | .upsert d e s =>
    match upsertIdMapping store d e s with
    | .ok store' => store'
    | .error _ => store
  | .del d e => deleteIdMapping store d e

/-- Run a sequence of mapping-store operations. -/
def runMapOps (store : MappingStore) (ops : List MapOp) : MappingStore :=
  ops.foldl applyMapOp store

/-- The bijection invariant of §3: within one `dataObject`, no two rows
share an `externalId` and no two rows share a `shopifyId`. -/
def storeBijective (store : MappingStore) : Prop :=
  store.Pairwise fun a b =>
    a.dataObject = b.dataObject → a.externalId ≠ b.externalId ∧ a.shopifyId ≠ b.shopifyId

/-! ## Job queue (`src/core/queue.ts`) -/

/-- `'sync' | 'webhook'`. -/
inductive JobType where
  | sync
  | webhook
deriving DecidableEq, Repr

/-! The numeric `JobPriority` enum: HIGH = 0, NORMAL = 1, LOW = 2.  The
code compares priorities with `<` / `<=` on these numbers. -/

namespace JobPriority

def HIGH : Nat := 0

def NORMAL : Nat := 1

def LOW : Nat := 2

end JobPriority

/-- A `Job`.  `status`, `payload` and the timestamps are carried by the
TS object but never read by the queue logic (status is write-only
bookkeeping there, represented here by which collection holds the job),
so only the fields the queue branches on are modelled. -/
structure Job where
  id : Nat
  dataObject : String
  type : JobType
  priority : Nat
  dependencies : List String
deriving DecidableEq, Repr

/-- The mutable state of a `JobQueue`: the pending queue, the running
map (a `Map<string, Job>` with the job id as key, modelled as a list of
jobs with distinct ids), `maxConcurrent`, and `jobCounter`.  Job ids are
modelled by the counter component of `job_${Date.now()}_${counter}`
(the counter alone already makes them unique). -/
structure QState where
  queue : List Job
  running : List Job
  maxConcurrent : Nat
  jobCounter : Nat
deriving DecidableEq, Repr

/-- `findJob`: first look for a queued, then for a running job with the
given `(dataObject, type)`. -/
def findJob (st : QState) (dataObject : String) (type : JobType) : Option Job :=
  match st.queue.find? (fun j => decide (j.dataObject = dataObject ∧ j.type = type)) with
  | some queued => some queued
  | none => st.running.find? (fun j => decide (j.dataObject = dataObject ∧ j.type = type))

/-- The priority-insertion loop of `enqueue`: insert before the first
queued job whose priority number is strictly greater (i.e. strictly
lower priority), else push at the end. -/
def insertByPriority (queue : List Job) (job : Job) : List Job :=
  match queue with
  | [] => [job]
  | j :: rest =>
    if job.priority < j.priority then job :: j :: rest
    else j :: insertByPriority rest job

/-- `areDependenciesSatisfied`: every declared dependency must be (a)
not currently running — the code asks `isSyncRunning(dep)`, i.e. the
`SyncState` status, abstracted here as a predicate — and (b) not queued
with priority number `<=` the candidate's (`queue.find` inspects the
first queued job of that data object). -/
def areDependenciesSatisfied (isSyncRunning : String → Bool) (queue : List Job) (job : Job) :
    Bool :=
  job.dependencies.all fun dep =>
    !isSyncRunning dep &&
      match queue.find? (fun j => decide (j.dataObject = dep)) with
      | some depJob => decide (job.priority < depJob.priority)
      | none => true

/-- The scan of `getNextJob`, which checks dependencies against the full
queue (`this.queue`) while walking a suffix of it, and splices the found
job out. -/
def getNextJobFrom (isSyncRunning : String → Bool) (full : List Job) :
    List Job → Option (Job × List Job)
  | [] => none
  | j :: rest =>
    if areDependenciesSatisfied isSyncRunning full j then some (j, rest)
    else
      match getNextJobFrom isSyncRunning full rest with
      | some (k, rest') => some (k, j :: rest')
      | none => none

/-- `getNextJob`: the first queued job whose dependencies are all
satisfied, removed from the queue; `none` if no queued job qualifies. -/
def getNextJob (isSyncRunning : String → Bool) (queue : List Job) :
    Option (Job × List Job) :=
  getNextJobFrom isSyncRunning queue queue

/-- The synchronous prefix of `startJob`: with a registered handler the
job enters the running map; with none it is immediately marked failed
and dropped (it never enters the running map). -/
def startJob (hasHandler : String → Bool) (st : QState) (job : Job) : QState :=
  if hasHandler job.dataObject then { st with running := st.running ++ [job] }
  else st

/-- The `processNext` dispatch loop, fuelled: while the running count is
below `maxConcurrent` and the queue is non-empty, pick `getNextJob`; if
none qualifies stop, else start it and continue.  Each iteration removes
one job from the queue, so fuel `queue.length` never runs out before the
loop's own exit condition. -/
def processNextFuel (isSyncRunning hasHandler : String → Bool) :
    Nat → QState → QState
  | 0, st => st
  | fuel + 1, st =>
    if st.running.length < st.maxConcurrent && !st.queue.isEmpty then
      match getNextJob isSyncRunning st.queue with
      | none => st
      | some (job, rest) =>
        processNextFuel isSyncRunning hasHandler fuel
          (startJob hasHandler { st with queue := rest } job)
    else st

/-- One `processNext` pass. -/
def processNext (isSyncRunning hasHandler : String → Bool) (st : QState) : QState :=
  processNextFuel isSyncRunning hasHandler st.queue.length st

/-- `enqueue`: build the job (incrementing `jobCounter` first, exactly as
`generateJobId` does), return the existing id if a job for the same
`(dataObject, type)` is queued or running, otherwise insert in priority
order and trigger a dispatch pass.  Returns the job id and the new
state. -/
def enqueue (isSyncRunning hasHandler : String → Bool) (st : QState) (dataObject : String)
    (type : JobType) (priority : Nat) (dependencies : List String) : Nat × QState :=
  let jobCounter := st.jobCounter + 1
  let job : Job := ⟨jobCounter, dataObject, type, priority, dependencies⟩
  match findJob st dataObject type with
  | some existing => (existing.id, { st with jobCounter := jobCounter })
  | none =>
    let st' := { st with jobCounter := jobCounter, queue := insertByPriority st.queue job }
    (job.id, processNext isSyncRunning hasHandler st')

/-- The `finally` block of `startJob` once the handler settles: delete
the job from the running map and run another dispatch pass. -/
def completeJob (isSyncRunning hasHandler : String → Bool) (st : QState) (jobId : Nat) :
    QState :=
  processNext isSyncRunning hasHandler
    { st with running := st.running.filter fun j => !decide (j.id = jobId) }

/-- `cancel`: splice out the first queued job with the given id. -/
def removeFirstById : List Job → Nat → List Job
  | [], _ => []
  | j :: rest, jobId => if j.id = jobId then rest else j :: removeFirstById rest jobId

/-- `cancel(jobId)` (its queue effect). -/
def cancel (st : QState) (jobId : Nat) : QState :=
  { st with queue := removeFirstById st.queue jobId }

/-- `clear()`: drop every queued job. -/
def clearQueue (st : QState) : QState :=
  { st with queue := [] }

/-- The queue states reachable from a fresh `JobQueue(maxConcurrent)`
through its public operations.  `isSyncRunning` and `hasHandler` are
existentially free at every step: the `SyncState` table and the handler
registry evolve outside the queue. -/
inductive Reachable : QState → Prop where
  | init (maxConcurrent : Nat) : Reachable ⟨[], [], maxConcurrent, 0⟩
  | enqueueStep (isSyncRunning hasHandler : String → Bool) (st : QState) (dataObject : String)
      (type : JobType) (priority : Nat) (dependencies : List String) : Reachable st →
      Reachable (enqueue isSyncRunning hasHandler st dataObject type priority dependencies).2
  | completeStep (isSyncRunning hasHandler : String → Bool) (st : QState) (jobId : Nat) :
      Reachable st → Reachable (completeJob isSyncRunning hasHandler st jobId)
  | cancelStep (st : QState) (jobId : Nat) : Reachable st → Reachable (cancel st jobId)
  | clearStep (st : QState) : Reachable st → Reachable (clearQueue st)

/-- The dedup key of `findJob`. -/
def jobKey (j : Job) : String × JobType :=
  (j.dataObject, j.type)

/-- The queue-order invariant: priorities non-decreasing from the front
(HIGH before NORMAL before LOW), and among equal priorities ids — which
increase in arrival order — ascending (FIFO). -/
def queueOrdered (queue : List Job) : Prop :=
  queue.Pairwise fun a b => a.priority < b.priority ∨ (a.priority = b.priority ∧ a.id < b.id)

/-- Every job held by the queue state was numbered by its counter. -/
def idsBounded (st : QState) : Prop :=
  ∀ j ∈ st.queue ++ st.running, j.id ≤ st.jobCounter

/-- The dedup invariant: the queued and running jobs carry pairwise
distinct `(dataObject, type)` keys. -/
def keysNodup (st : QState) : Prop :=
  ((st.queue ++ st.running).map jobKey).Nodup

/-! ## Handler lifecycle (`src/handlers/base.ts`) -/

/-- The `action` union of `ItemResult`. -/
inductive ItemAction where
  | created
  | updated
  | deleted
  | unchanged
  | skipped
deriving DecidableEq, Repr

/-- `ItemResult` from `base.ts`. -/
structure ItemResult where
  success : Bool
  action : ItemAction
  externalId : String
  shopifyId : Option String
  error : Option String
deriving DecidableEq, Repr

/-- `SyncStats` from `base.ts`. -/
structure SyncStats where
  processed : Nat
  succeeded : Nat
  failed : Nat
  unchanged : Nat
  created : Nat
  updated : Nat
  deleted : Nat
deriving DecidableEq, Repr

/-- The zero-initialised stats object `processBatch` starts from. -/
def emptyStats : SyncStats :=
  ⟨0, 0, 0, 0, 0, 0, 0⟩

/-- The per-item body of `processBatch`: count the item as processed;
a throwing processor (`Except.error`) is caught and counted as failed;
an unsuccessful result is counted as failed; a successful result is
counted as succeeded plus its per-action counter (`skipped` has no
counter of its own). -/
def processItemStep (stats : SyncStats) (outcome : Except String ItemResult) : SyncStats :=
  let stats := { stats with processed := stats.processed + 1 }
  match outcome with
  | .ok result =>
    if result.success then
      let stats := { stats with succeeded := stats.succeeded + 1 }
      match result.action with
      | .created => { stats with created := stats.created + 1 }
      | .updated => { stats with updated := stats.updated + 1 }
      | .deleted => { stats with deleted := stats.deleted + 1 }
      | .unchanged => { stats with unchanged := stats.unchanged + 1 }
      | .skipped => stats
    else { stats with failed := stats.failed + 1 }
  | .error _ => { stats with failed := stats.failed + 1 }

/-- The `i += batchSize` slicing loop of `processBatch` (also
`batchItems` in `delta.ts`), fuelled by the item count: every chunk
consumes at least one item when `batchSize > 0`, so `items.length`
rounds of fuel suffice. -/
def batchChunks {T : Type} : Nat → List T → Nat → List (List T)
  | 0, _, _ => []
  | _, [], _ => []
  | fuel + 1, items, batchSize =>
    items.take batchSize :: batchChunks fuel (items.drop batchSize) batchSize

/-- Slice a list into consecutive chunks of `batchSize`. -/
def batchItems {T : Type} (items : List T) (batchSize : Nat) : List (List T) :=
  batchChunks items.length items batchSize

/-- `processBatch`: fold the per-item step over every chunk.  The
`Promise.all` fan-out within one chunk only interleaves the counter
increments, which commute, so the accumulated stats are modelled
sequentially; a processor that throws is an `Except.error` outcome. -/
def processBatch {T : Type} (items : List T) (processor : T → Except String ItemResult)
    (batchSize : Nat) : SyncStats :=
  (batchItems items batchSize).foldl
    (fun stats chunk => chunk.foldl (fun s item => processItemStep s (processor item)) stats)
    emptyStats

/-- One row of the `jobLog` table (`src/db/client.ts`), the fields the
sync lifecycle writes. -/
structure JobLogRow where
  id : Nat
  dataObject : String
  jobType : String
  status : String
  itemsProcessed : Nat
  itemsSucceeded : Nat
  itemsFailed : Nat
  errorMessage : Option String
deriving DecidableEq, Repr

/-- The slice of the database `handleSync` touches: the `status` column
of `syncState` (one row per data object, upserted) and the `jobLog`
table.  Timestamp columns are written by the code but never read by it,
and are omitted. -/
structure Db where
  syncStatus : List (String × String)
  jobLogs : List JobLogRow
deriving DecidableEq, Repr

/-- `updateSyncState` restricted to the `status` column: Prisma `upsert`
on the `dataObject` key. -/
def updateSyncStatus (db : Db) (dataObject status : String) : Db :=
  if db.syncStatus.any (fun p => decide (p.1 = dataObject)) then
    { db with syncStatus := db.syncStatus.map fun p =>
        if p.1 = dataObject then (p.1, status) else p }
  else
    { db with syncStatus := db.syncStatus ++ [(dataObject, status)] }

/-- `markSyncStarted` (status effect). -/
def markSyncStarted (db : Db) (dataObject : String) : Db :=
  updateSyncStatus db dataObject "running"

/-- `markSyncCompleted` (status effect). -/
def markSyncCompleted (db : Db) (dataObject : String) : Db :=
  updateSyncStatus db dataObject "idle"

/-- `markSyncFailed`. -/
def markSyncFailed (db : Db) (dataObject : String) : Db :=
  updateSyncStatus db dataObject "failed"

/-- `createJobLog`: insert a fresh `queued` row and return its id
(Prisma generates an opaque id; row count + 1 serves here). -/
def createJobLog (db : Db) (dataObject jobType : String) : Nat × Db :=
  let id := db.jobLogs.length + 1
  (id, { db with jobLogs := db.jobLogs ++ [⟨id, dataObject, jobType, "queued", 0, 0, 0, none⟩] })

/-- `updateJobLog`: partial update of the row with the given id. -/
def updateJobLog (db : Db) (jobId : Nat) (f : JobLogRow → JobLogRow) : Db :=
  { db with jobLogs := db.jobLogs.map fun r => if r.id = jobId then f r else r }

/-- `markJobStarted`. -/
def markJobStarted (db : Db) (jobId : Nat) : Db :=
  updateJobLog db jobId fun r => { r with status := "running" }

/-- `markJobCompleted`. -/
def markJobCompleted (db : Db) (jobId : Nat) (processed succeeded failed : Nat) : Db :=
  updateJobLog db jobId fun r =>
    { r with
      status := "completed"
      itemsProcessed := processed
      itemsSucceeded := succeeded
      itemsFailed := failed }

/-- `markJobFailed`: persist the error message. -/
def markJobFailed (db : Db) (jobId : Nat) (errorMessage : String) : Db :=
  updateJobLog db jobId fun r => { r with status := "failed", errorMessage := some errorMessage }

/-- `BaseHandler.handleSync`: create the job-log entry, mark the sync
and the job started, then run `this.sync()` — its single invocation's
outcome is `syncOutcome` — and either mark everything completed, or, in
the `catch` branch, mark the sync failed, persist the error message to
the job log, and rethrow the error unchanged. -/
def handleSync (db : Db) (name : String) (syncOutcome : Except String SyncStats) :
    Except String SyncStats × Db :=
  let created := createJobLog db name "sync"
  let jobLogId := created.1
  let db := created.2
  let db := markSyncStarted db name
  let db := markJobStarted db jobLogId
  match syncOutcome with
  | .ok stats =>
    let db := markSyncCompleted db name
    let db := markJobCompleted db jobLogId stats.processed stats.succeeded stats.failed
    (.ok stats, db)
  | .error e =>
    let db := markSyncFailed db name
    let db := markJobFailed db jobLogId e
    (.error e, db)

/-- The status `JobQueue.startJob` assigns the job after awaiting its
handler: `completed` on normal return, `failed` when the handler threw
(the rethrown sync error lands here). -/
def startJobResultStatus {α : Type} : Except String α → String
  | .ok _ => "completed"
  | .error _ => "failed"

/-- Status lookup in the modelled `syncState` table. -/
def getSyncStatus (db : Db) (dataObject : String) : Option String :=
  (db.syncStatus.find? (fun p => decide (p.1 = dataObject))).map (·.2)

/-- Row lookup in the modelled `jobLog` table. -/
def findJobLog (db : Db) (jobId : Nat) : Option JobLogRow :=
  db.jobLogs.find? fun r => decide (r.id = jobId)

/-! ## Webhook ingress (`src/core/webhookServer.ts`,
`src/integrations/shopify/webhooks.ts`) -/

/-- `crypto.timingSafeEqual(Buffer.from(a), Buffer.from(b))`: throws a
`RangeError` ("Input buffers must have the same byte length") when the
two buffers differ in byte length, and otherwise compares them byte for
byte in constant time.  UTF-8 encoding is injective, so byte equality
of the two buffers is equality of the strings. -/
def timingSafeEqual (a b : String) : Except String Bool :=
  if a.utf8ByteSize = b.utf8ByteSize then Except.ok (decide (a = b))
  else Except.error "Input buffers must have the same byte length"

/-- `verifyWebhookSignature`: with no configured secret, verification is
skipped and the function returns `true` ("Allow in development") before
any cryptography runs; otherwise the HMAC-SHA256 base64 digest of the
raw body under the secret (the digest computation abstracted as the
parameter `hmacSha256Base64`) is compared with the header by
`crypto.timingSafeEqual` — whose length-mismatch `RangeError`
propagates to the caller, there being no try/catch on this path. -/
def verifyWebhookSignature (hmacSha256Base64 : String → String → String)
    (secret : Option String) (body : String) (hmacHeader : String) : Except String Bool :=
  match secret with
  | none => Except.ok true
  | some s => timingSafeEqual (hmacSha256Base64 s body) hmacHeader

/-- The `topicToDataObject` record of `webhookServer.ts`. -/
def topicToDataObject (topic : String) : Option String :=
  if topic = "orders/create" ∨ topic = "orders/updated" ∨ topic = "orders/cancelled" ∨
      topic = "orders/fulfilled" ∨ topic = "orders/paid" then some "orders"
  else if topic = "customers/create" ∨ topic = "customers/update" ∨
      topic = "customers/delete" then some "customers"
  else if topic = "products/create" ∨ topic = "products/update" ∨
      topic = "products/delete" then some "products"
  else if topic = "inventory_levels/update" then some "inventory"
  else none

/-- `getResourceType` from `webhooks.ts`. -/
def getResourceType (topic : String) : String :=
  if topic = "orders/create" ∨ topic = "orders/updated" ∨ topic = "orders/cancelled" ∨
      topic = "orders/fulfilled" ∨ topic = "orders/paid" then "Order"
  else if topic = "customers/create" ∨ topic = "customers/update" ∨
      topic = "customers/delete" then "Customer"
  else if topic = "products/create" ∨ topic = "products/update" ∨
      topic = "products/delete" then "Product"
  else if topic = "inventory_levels/update" then "InventoryLevel"
  else if topic = "fulfillments/create" ∨ topic = "fulfillments/update" then "Fulfillment"
  else "Unknown"

/-- The fields of a webhook JSON payload the ingress inspects.  `none`
stands for an absent (or JS-falsy) field. -/
structure WebhookPayload where
  id : Option String
  admin_graphql_api_id : Option String
deriving DecidableEq, Repr

/-- `extractResourceId`: build a gid from `payload.id`, fall back to
`payload.admin_graphql_api_id`, else throw. -/
def extractResourceId (topic : String) (payload : WebhookPayload) : Except String String :=
  match payload.id with
  | some idValue => .ok ("gid://shopify/" ++ getResourceType topic ++ "/" ++ idValue)
  | none =>
    match payload.admin_graphql_api_id with
    | some gid => .ok gid
    | none => .error ("Could not extract resource ID from webhook payload for topic " ++ topic)

/-- The per-kind configuration fields the webhook path consults. -/
structure DataObjectCfg where
  enabled : Bool
  trigger : String
deriving DecidableEq, Repr

/-- An inbound POST as `processWebhook` sees it: the
`x-shopify-hmac-sha256` header (if any), the captured raw body (if
any), and the parsed JSON payload. -/
structure WebhookRequest where
  hmacHeader : Option String
  rawBody : Option String
  payload : WebhookPayload
deriving DecidableEq, Repr

/-- A call to `jobQueue.enqueue` issued by the webhook path. -/
structure EnqueuedJobReq where
  dataObject : String
  type : JobType
  priority : Nat
deriving DecidableEq, Repr

/-- The observable outcome of `WebhookServer.processWebhook`: the HTTP
status sent, the `storeWebhookEvent` writes performed, and the
`jobQueue.enqueue` calls issued. -/
structure WebhookResult where
  status : Nat
  storedEvents : List (String × String)
  enqueued : List EnqueuedJobReq
deriving DecidableEq, Repr

/-- The part of `WebhookServer.processWebhook` after the HMAC guard:
extract the resource id (with the `catch` fallback to
`payload.id || 'unknown'`), map the topic to a data object, and — when
that kind is known, enabled and webhook-triggered — store the event and
enqueue exactly one HIGH-priority webhook job; every other outcome
acknowledges with 200 and enqueues nothing. -/
def processWebhookBody (getConfig : String → DataObjectCfg) (req : WebhookRequest)
    (topic : String) : WebhookResult :=
  let shopifyId :=
    match extractResourceId topic req.payload with
    | .ok s => s
    | .error _ =>
      match req.payload.id with
      | some idValue => idValue
      | none => "unknown"
  match topicToDataObject topic with
  | none => { status := 200, storedEvents := [], enqueued := [] }
  | some dataObject =>
    let config := getConfig dataObject
    if config.enabled then
      if config.trigger = "webhook" then
        { status := 200
          storedEvents := [(topic, shopifyId)]
          enqueued := [⟨dataObject, JobType.webhook, JobPriority.HIGH⟩] }
      else { status := 200, storedEvents := [], enqueued := [] }
    else { status := 200, storedEvents := [], enqueued := [] }

/-- `WebhookServer.processWebhook`: the HMAC guard runs only when both
the signature header and the captured raw body are present; a failed
verification is answered 401 with nothing stored or enqueued; a
`RangeError` thrown by `timingSafeEqual` inside `verifyWebhookSignature`
is not caught anywhere in `processWebhook`, so it propagates
(`Except.error`) — the request gets no 401 and nothing is stored or
enqueued.  When the guard passes (or is skipped), processing continues
with `processWebhookBody`. -/
def processWebhook (hmacSha256Base64 : String → String → String) (secret : Option String)
    (getConfig : String → DataObjectCfg) (req : WebhookRequest) (topic : String) :
    Except String WebhookResult :=
  match req.hmacHeader, req.rawBody with
  | some header, some body =>
    match verifyWebhookSignature hmacSha256Base64 secret body header with
    | Except.error e => Except.error e
    | Except.ok isValid =>
      if !isValid then Except.ok { status := 401, storedEvents := [], enqueued := [] }
      else Except.ok (processWebhookBody getConfig req topic)
  | _, _ => Except.ok (processWebhookBody getConfig req topic)

/-! ## Lemmas and theorems -/

/-- The create classification of a single source item: chosen when the
managed-items lookup is falsy (no entry, or an entry whose stored
Shopify id is the empty string). -/
def createClass {T : Type} (managedItems : List (String × String)) (getExternalId : T → String)
    (item : T) : Option (SyncItem T) :=
  if truthyStr (mapGet managedItems (getExternalId item)) then none
  else some ⟨getExternalId item, item, none⟩

/-- The update classification of a single source item: chosen exactly
when the lookup finds an entry with a non-empty stored Shopify id. -/
def updateClass {T : Type} (managedItems : List (String × String)) (getExternalId : T → String)
    (item : T) : Option (SyncItem T) :=
  match mapGet managedItems (getExternalId item) with
  | some s => if s = "" then none else some ⟨getExternalId item, item, some s⟩
  | none => none

lemma mem_setAdd (s : List String) (x y : String) :
    y ∈ setAdd s x ↔ y ∈ s ∨ y = x := by
  unfold setAdd
  split
  · rename_i h
    rw [List.elem_iff] at h
    constructor
    · exact Or.inl
    · rintro (hy | rfl)
      · exact hy
      · exact h
  · simp [List.mem_append]

lemma mem_idsFold {T : Type} (getExternalId : T → String) (items : List T) :
    ∀ (ids : List String) (k : String),
      k ∈ items.foldl (fun s it => setAdd s (getExternalId it)) ids ↔
        k ∈ ids ∨ k ∈ items.map getExternalId := by
  induction items with
  | nil => simp
  | cons it rest ih =>
    intro ids k
    simp only [List.foldl_cons, List.map_cons, List.mem_cons]
    rw [ih, mem_setAdd]
    tauto

lemma classify_foldl {T : Type} (managedItems : List (String × String))
    (getExternalId : T → String) (items : List T) :
    ∀ (cs us : List (SyncItem T)) (ids : List String),
      items.foldl (classifyStep managedItems getExternalId) (cs, us, ids) =
        (cs ++ items.filterMap (createClass managedItems getExternalId),
         us ++ items.filterMap (updateClass managedItems getExternalId),
         items.foldl (fun s it => setAdd s (getExternalId it)) ids) := by
  induction items with
  | nil => simp
  | cons it rest ih =>
    intro cs us ids
    simp only [List.foldl_cons, List.filterMap_cons]
    rcases hm : mapGet managedItems (getExternalId it) with _ | s
    · have hstep : classifyStep managedItems getExternalId (cs, us, ids) it =
          (cs ++ [⟨getExternalId it, it, none⟩], us, setAdd ids (getExternalId it)) := by
        simp [classifyStep, hm, truthyStr]
      rw [hstep, ih]
      simp [createClass, updateClass, hm, truthyStr]
    · by_cases hs : s = ""
      · subst hs
        have hstep : classifyStep managedItems getExternalId (cs, us, ids) it =
            (cs ++ [⟨getExternalId it, it, none⟩], us, setAdd ids (getExternalId it)) := by
          simp [classifyStep, hm, truthyStr]
        rw [hstep, ih]
        simp [createClass, updateClass, hm, truthyStr]
      · have hstep : classifyStep managedItems getExternalId (cs, us, ids) it =
            (cs, us ++ [⟨getExternalId it, it, some s⟩], setAdd ids (getExternalId it)) := by
          simp [classifyStep, hm, truthyStr, hs]
        rw [hstep, ih]
        simp [createClass, updateClass, hm, truthyStr, hs]

lemma idsFold_contains {T : Type} (getExternalId : T → String) (items : List T) (k : String) :
    (items.foldl (fun s it => setAdd s (getExternalId it)) ([] : List String)).contains k =
      (items.map getExternalId).contains k := by
  have h := mem_idsFold getExternalId items [] k
  simp only [List.not_mem_nil, false_or] at h
  show List.elem k _ = List.elem k _
  rw [List.elem_eq_mem, List.elem_eq_mem, decide_eq_decide]
  exact h

lemma detectDeltas_toUpdate {T : Type} (managedItems : List (String × String))
    (sourceItems : List T) (getExternalId : T → String) (mode : Mode) :
    (detectDeltas managedItems sourceItems getExternalId mode).toUpdate =
      sourceItems.filterMap (updateClass managedItems getExternalId) := by
  unfold detectDeltas
  rw [classify_foldl]
  simp

lemma detectDeltas_toCreate {T : Type} (managedItems : List (String × String))
    (sourceItems : List T) (getExternalId : T → String) (mode : Mode) :
    (detectDeltas managedItems sourceItems getExternalId mode).toCreate =
      sourceItems.filterMap (createClass managedItems getExternalId) := by
  unfold detectDeltas
  rw [classify_foldl]
  simp

lemma detectDeltas_toDelete_sync {T : Type} (managedItems : List (String × String))
    (sourceItems : List T) (getExternalId : T → String) :
    (detectDeltas managedItems sourceItems getExternalId Mode.sync).toDelete =
      (managedItems.map (·.1)).filter
        (fun externalId => !(sourceItems.map getExternalId).contains externalId) := by
  unfold detectDeltas
  rw [classify_foldl]
  simp only []
  refine List.filter_congr ?_
  intro x _
  rw [idsFold_contains]

/-- **C1** (counterexample).  The claim says every source item whose
externalId has an entry in the mapping store is classified as an update.
The code tests the looked-up Shopify id with JS truthiness
(`if (shopifyId)`), so a stored mapping whose remoteId is the empty
string sends its item to `toCreate`: with mapping `A → ""` and source
`[A]`, `A` has an entry yet `toUpdate` is empty and `A` is classified
as a create. -/
theorem detectDeltas_mapped_item_not_updated :
    mapGet [("A", "")] "A" = some "" ∧
    (detectDeltas [("A", "")] ["A"] (fun s => s) Mode.sync).toUpdate = [] ∧
    (detectDeltas [("A", "")] ["A"] (fun s => s) Mode.sync).toCreate = [⟨"A", "A", none⟩] :=
  ⟨rfl, rfl, rfl⟩

/-- **C1** (amended).  For every kind's managed map, source item list,
externalId extractor and mode, `detectDeltas` classifies each source
item whose externalId is mapped to a *non-empty* remoteId as an update
carrying that stored remoteId, classifies each source item without a
mapping (or mapped to the empty string, which JS truthiness treats as
absent) as a create, and, when mode is `sync`, puts exactly the mapped
externalIds absent from the source id set into `toDelete`, while under
`overwrite` `toDelete` is empty; `unchanged` is always 0.  In
particular, with source externalIds `{A, B}` and mappings
`{A→x1, C→x3}`, `mode=sync` yields `toCreate=[B]`, `toUpdate=[A]`
(carrying `x1`), `toDelete=[C]`, and `mode=overwrite` yields the same
create/update sets with `toDelete=[]`. -/
theorem detectDeltas_classification :
    (∀ (T : Type) (managedItems : List (String × String)) (sourceItems : List T)
        (getExternalId : T → String) (mode : Mode),
      (detectDeltas managedItems sourceItems getExternalId mode).toUpdate =
          sourceItems.filterMap (updateClass managedItems getExternalId) ∧
        (detectDeltas managedItems sourceItems getExternalId mode).toCreate =
          sourceItems.filterMap (createClass managedItems getExternalId) ∧
        (detectDeltas managedItems sourceItems getExternalId Mode.sync).toDelete =
          (managedItems.map (·.1)).filter
            (fun externalId => !(sourceItems.map getExternalId).contains externalId) ∧
        (detectDeltas managedItems sourceItems getExternalId Mode.overwrite).toDelete = [] ∧
        (detectDeltas managedItems sourceItems getExternalId mode).unchanged = 0) ∧
      detectDeltas [("A", "x1"), ("C", "x3")] ["A", "B"] (fun s => s) Mode.sync =
        ⟨[⟨"B", "B", none⟩], [⟨"A", "A", some "x1"⟩], ["C"], 0⟩ ∧
      detectDeltas [("A", "x1"), ("C", "x3")] ["A", "B"] (fun s => s) Mode.overwrite =
        ⟨[⟨"B", "B", none⟩], [⟨"A", "A", some "x1"⟩], [], 0⟩ := by
  refine ⟨?_, rfl, rfl⟩
  intro T managedItems sourceItems getExternalId mode
  exact ⟨detectDeltas_toUpdate managedItems sourceItems getExternalId mode,
    detectDeltas_toCreate managedItems sourceItems getExternalId mode,
    detectDeltas_toDelete_sync managedItems sourceItems getExternalId, rfl, rfl⟩

lemma find?_append_of_none {α : Type} {l₁ : List α} (l₂ : List α) {p : α → Bool}
    (h : ∀ x ∈ l₁, p x = false) : (l₁ ++ l₂).find? p = l₂.find? p := by
  induction l₁ with
  | nil => rfl
  | cons a t ih =>
    rw [List.cons_append, List.find?_cons, h a (by simp)]
    exact ih fun x hx => h x (by simp [hx])

lemma upsertIdMapping_bijective {store store' : MappingStore} {d e s : String}
    (h : upsertIdMapping store d e s = Except.ok store') (hb : storeBijective store) :
    storeBijective store' := by
  unfold upsertIdMapping at h
  by_cases hkey : store.any (fun r => decide (r.dataObject = d ∧ r.externalId = e)) = true
  · rw [if_pos hkey] at h
    by_cases hdup : store.any
        (fun r => decide (r.dataObject = d ∧ r.shopifyId = s ∧ r.externalId ≠ e)) = true
    · rw [if_pos hdup] at h
      cases h
    · rw [if_neg hdup] at h
      injection h with h
      subst h
      have hno : ∀ r ∈ store, ¬(r.dataObject = d ∧ r.shopifyId = s ∧ r.externalId ≠ e) := by
        intro r hr hc
        exact hdup (by rw [List.any_eq_true]; exact ⟨r, hr, decide_eq_true hc⟩)
      rw [storeBijective, List.pairwise_map]
      refine List.Pairwise.imp_of_mem ?_ hb
      intro a b ha hbm hR
      by_cases hA : a.dataObject = d ∧ a.externalId = e <;>
        by_cases hB : b.dataObject = d ∧ b.externalId = e
      · rw [if_pos hA, if_pos hB]
        intro _
        exact absurd (hA.2.trans hB.2.symm) (hR (hA.1.trans hB.1.symm)).1
      · rw [if_pos hA, if_neg hB]
        intro hd
        refine ⟨(hR hd).1, ?_⟩
        intro hss
        have hbd : b.dataObject = d := hd.symm.trans hA.1
        have hbe : b.externalId ≠ e := fun hbe => hB ⟨hbd, hbe⟩
        exact hno b hbm ⟨hbd, hss.symm, hbe⟩
      · rw [if_neg hA, if_pos hB]
        intro hd
        refine ⟨(hR hd).1, ?_⟩
        intro hss
        have had : a.dataObject = d := hd.trans hB.1
        have hae : a.externalId ≠ e := fun hae => hA ⟨had, hae⟩
        exact hno a ha ⟨had, hss, hae⟩
      · rw [if_neg hA, if_neg hB]
        exact hR
  · rw [if_neg hkey] at h
    by_cases hdup : store.any (fun r => decide (r.dataObject = d ∧ r.shopifyId = s)) = true
    · rw [if_pos hdup] at h
      cases h
    · rw [if_neg hdup] at h
      injection h with h
      subst h
      have hnokey : ∀ r ∈ store, ¬(r.dataObject = d ∧ r.externalId = e) := by
        intro r hr hc
        exact hkey (by rw [List.any_eq_true]; exact ⟨r, hr, decide_eq_true hc⟩)
      have hnos : ∀ r ∈ store, ¬(r.dataObject = d ∧ r.shopifyId = s) := by
        intro r hr hc
        exact hdup (by rw [List.any_eq_true]; exact ⟨r, hr, decide_eq_true hc⟩)
      rw [storeBijective, List.pairwise_append]
      refine ⟨hb, by simp, ?_⟩
      intro a ha b hbm
      rw [List.mem_singleton] at hbm
      subst hbm
      intro hd
      exact ⟨fun hae => hnokey a ha ⟨hd, hae⟩, fun has => hnos a ha ⟨hd, has⟩⟩

lemma upsertIdMapping_lookup {store store' : MappingStore} {d e s : String}
    (h : upsertIdMapping store d e s = Except.ok store') :
    getShopifyIdOf store' d e = some s := by
  unfold upsertIdMapping at h
  by_cases hkey : store.any (fun r => decide (r.dataObject = d ∧ r.externalId = e)) = true
  · rw [if_pos hkey] at h
    by_cases hdup : store.any
        (fun r => decide (r.dataObject = d ∧ r.shopifyId = s ∧ r.externalId ≠ e)) = true
    · rw [if_pos hdup] at h
      cases h
    · rw [if_neg hdup] at h
      injection h with h
      subst h
      unfold getShopifyIdOf
      induction store with
      | nil => cases hkey
      | cons r t ih =>
        by_cases hr : r.dataObject = d ∧ r.externalId = e
        · rw [List.map_cons, if_pos hr,
            List.find?_cons_of_pos _ (by simpa using hr)]
          rfl
        · have hrf : decide (r.dataObject = d ∧ r.externalId = e) = false := by
            simpa using hr
          rw [List.map_cons, if_neg hr, List.find?_cons_of_neg _ (by simpa using hr)]
          have hkeyT : t.any (fun r => decide (r.dataObject = d ∧ r.externalId = e)) = true := by
            rw [List.any_cons, hrf] at hkey
            simpa using hkey
          have hdupT : ¬(t.any fun r =>
              decide (r.dataObject = d ∧ r.shopifyId = s ∧ r.externalId ≠ e)) = true := by
            intro h'
            exact hdup (by rw [List.any_cons, h']; simp)
          exact ih hkeyT hdupT
  · rw [if_neg hkey] at h
    by_cases hdup : store.any (fun r => decide (r.dataObject = d ∧ r.shopifyId = s)) = true
    · rw [if_pos hdup] at h
      cases h
    · rw [if_neg hdup] at h
      injection h with h
      subst h
      unfold getShopifyIdOf
      rw [find?_append_of_none]
      · rw [List.find?_cons_of_pos _ (by simp)]
        rfl
      · intro r hr
        by_cases hc : r.dataObject = d ∧ r.externalId = e
        · exact absurd (by rw [List.any_eq_true]; exact ⟨r, hr, decide_eq_true hc⟩) hkey
        · simpa using hc

lemma deleteIdMapping_bijective {store : MappingStore} {d e : String}
    (hb : storeBijective store) : storeBijective (deleteIdMapping store d e) :=
  List.Pairwise.sublist (List.filter_sublist store) hb

lemma applyMapOp_bijective {store : MappingStore} (op : MapOp) (hb : storeBijective store) :
    storeBijective (applyMapOp store op) := by
  cases op with
  | upsert d e s =>
    simp only [applyMapOp]
    rcases h : upsertIdMapping store d e s with e' | store'
    · simp only [h]
      exact hb
    · simp only [h]
      exact upsertIdMapping_bijective h hb
  | del d e =>
    simp only [applyMapOp]
    exact deleteIdMapping_bijective hb

lemma runMapOps_bijective {store : MappingStore} (ops : List MapOp)
    (hb : storeBijective store) : storeBijective (runMapOps store ops) := by
  induction ops generalizing store with
  | nil => exact hb
  | cons op rest ih => exact ih (applyMapOp_bijective op hb)

/-- **C4**.  For every kind, after any sequence of identity-mapping
store operations (upsert, delete) starting from a bijective store —
the empty store included — the stored mappings of each kind form a
bijection: no two rows of one `dataObject` share an `externalId` and no
two share a `shopifyId` (that is `storeBijective`).  Moreover a
successful `upsertIdMapping kind externalId remoteId` overwrites the
remoteId stored for that externalId, and never leaves two externalIds
mapped to the same remoteId (an upsert that would is rejected by the
schema's unique index, leaving the store unchanged — see
`upsertIdMapping`). -/
theorem idMapping_bijection :
    (∀ (store : MappingStore) (ops : List MapOp),
        storeBijective store → storeBijective (runMapOps store ops)) ∧
      (∀ (store store' : MappingStore) (d e s : String),
        upsertIdMapping store d e s = Except.ok store' →
          getShopifyIdOf store' d e = some s) ∧
      (∀ (store store' : MappingStore) (d e s : String),
        upsertIdMapping store d e s = Except.ok store' →
          storeBijective store → storeBijective store') :=
  ⟨fun _ ops hb => runMapOps_bijective ops hb,
   fun _ _ _ _ _ h => upsertIdMapping_lookup h,
   fun _ _ _ _ _ h hb => upsertIdMapping_bijective h hb⟩

/-- Witness for `idMapping_bijection` at concrete inputs: from the
bijective store `{products: A→x1}`, upserting `A→x2`, then `B→x2`
(rejected: x2 is taken), then deleting `A` keeps the store bijective;
and the successful upsert `A→x2` indeed overwrites. -/
theorem idMapping_bijection_witness :
    storeBijective [⟨"products", "A", "x1"⟩] ∧
      storeBijective (runMapOps [⟨"products", "A", "x1"⟩]
        [MapOp.upsert "products" "A" "x2", MapOp.upsert "products" "B" "x2",
          MapOp.del "products" "A"]) ∧
      upsertIdMapping [⟨"products", "A", "x1"⟩] "products" "A" "x2" =
        Except.ok [⟨"products", "A", "x2"⟩] ∧
      getShopifyIdOf [⟨"products", "A", "x2"⟩] "products" "A" = some "x2" ∧
      storeBijective [⟨"products", "A", "x2"⟩] :=
  ⟨by simp [storeBijective],
   idMapping_bijection.1 [⟨"products", "A", "x1"⟩]
     [MapOp.upsert "products" "A" "x2", MapOp.upsert "products" "B" "x2",
       MapOp.del "products" "A"] (by simp [storeBijective]),
   by rfl,
   idMapping_bijection.2.1 [⟨"products", "A", "x1"⟩] [⟨"products", "A", "x2"⟩]
     "products" "A" "x2" (by rfl),
   idMapping_bijection.2.2 [⟨"products", "A", "x1"⟩] [⟨"products", "A", "x2"⟩]
     "products" "A" "x2" (by rfl) (by simp [storeBijective])⟩

lemma getNextJobFrom_spec {isRun : String → Bool} {full scan : List Job} :
    ∀ {j : Job} {rest : List Job}, getNextJobFrom isRun full scan = some (j, rest) →
      ∃ pre post, scan = pre ++ j :: post ∧ rest = pre ++ post ∧
        areDependenciesSatisfied isRun full j = true ∧
        ∀ k ∈ pre, areDependenciesSatisfied isRun full k = false := by
  induction scan with
  | nil => intro j rest h; cases h
  | cons a t ih =>
    intro j rest h
    rw [getNextJobFrom] at h
    by_cases ha : areDependenciesSatisfied isRun full a = true
    · rw [if_pos ha] at h
      simp only [Option.some.injEq, Prod.mk.injEq] at h
      obtain ⟨rfl, rfl⟩ := h
      exact ⟨[], t, rfl, rfl, ha, by simp⟩
    · rw [if_neg ha] at h
      rcases hrec : getNextJobFrom isRun full t with _ | p
      · rw [hrec] at h
        simp at h
      · obtain ⟨k, rest'⟩ := p
        rw [hrec] at h
        simp only [Option.some.injEq, Prod.mk.injEq] at h
        obtain ⟨rfl, rfl⟩ := h
        obtain ⟨pre, post, ht, hrest, hsat, hpre⟩ := ih hrec
        refine ⟨a :: pre, post, by rw [ht]; rfl, by rw [hrest]; rfl, hsat, ?_⟩
        intro x hx
        rcases List.mem_cons.mp hx with rfl | hx'
        · exact Bool.eq_false_iff.mpr ha
        · exact hpre x hx'

lemma getNextJobFrom_none {isRun : String → Bool} {full : List Job} :
    ∀ {scan : List Job}, getNextJobFrom isRun full scan = none →
      ∀ k ∈ scan, areDependenciesSatisfied isRun full k = false := by
  intro scan
  induction scan with
  | nil => intro _ k hk; cases hk
  | cons a t ih =>
    intro h k hk
    rw [getNextJobFrom] at h
    by_cases ha : areDependenciesSatisfied isRun full a = true
    · rw [if_pos ha] at h
      cases h
    · rw [if_neg ha] at h
      rcases hrec : getNextJobFrom isRun full t with _ | p
      · rcases List.mem_cons.mp hk with rfl | hk'
        · exact Bool.eq_false_iff.mpr ha
        · exact ih hrec k hk'
      · obtain ⟨x, y⟩ := p
        rw [hrec] at h
        simp at h

lemma startJob_queue (hasHandler : String → Bool) (st : QState) (job : Job) :
    (startJob hasHandler st job).queue = st.queue := by
  unfold startJob
  split <;> rfl

lemma startJob_maxConcurrent (hasHandler : String → Bool) (st : QState) (job : Job) :
    (startJob hasHandler st job).maxConcurrent = st.maxConcurrent := by
  unfold startJob
  split <;> rfl

lemma startJob_jobCounter (hasHandler : String → Bool) (st : QState) (job : Job) :
    (startJob hasHandler st job).jobCounter = st.jobCounter := by
  unfold startJob
  split <;> rfl

lemma processNextFuel_maxConcurrent (isRun hasHandler : String → Bool) :
    ∀ (fuel : Nat) (st : QState),
      (processNextFuel isRun hasHandler fuel st).maxConcurrent = st.maxConcurrent := by
  intro fuel
  induction fuel with
  | zero => intro st; rfl
  | succ n ih =>
    intro st
    rw [processNextFuel]
    split
    · split
      · rfl
      · rename_i job rest heq
        rw [ih]
        exact startJob_maxConcurrent ..
    · rfl

lemma processNextFuel_jobCounter (isRun hasHandler : String → Bool) :
    ∀ (fuel : Nat) (st : QState),
      (processNextFuel isRun hasHandler fuel st).jobCounter = st.jobCounter := by
  intro fuel
  induction fuel with
  | zero => intro st; rfl
  | succ n ih =>
    intro st
    rw [processNextFuel]
    split
    · split
      · rfl
      · rename_i job rest heq
        rw [ih]
        exact startJob_jobCounter ..
    · rfl

lemma processNextFuel_queue_sublist (isRun hasHandler : String → Bool) :
    ∀ (fuel : Nat) (st : QState),
      List.Sublist (processNextFuel isRun hasHandler fuel st).queue st.queue := by
  intro fuel
  induction fuel with
  | zero => intro st; exact List.Sublist.refl _
  | succ n ih =>
    intro st
    rw [processNextFuel]
    split
    · split
      · exact List.Sublist.refl _
      · rename_i job rest heq
        have h1 := ih (startJob hasHandler { st with queue := rest } job)
        rw [startJob_queue] at h1
        obtain ⟨pre, post, hq, hrest, -, -⟩ := getNextJobFrom_spec heq
        refine h1.trans ?_
        rw [hq, hrest]
        exact List.Sublist.append (List.Sublist.refl pre) (List.sublist_cons_self job post)
    · exact List.Sublist.refl _

lemma processNextFuel_pres (isRun hasHandler : String → Bool) (P : List Job → Prop)
    (hPerm : ∀ {l l' : List Job}, l.Perm l' → P l → P l')
    (hSub : ∀ {l l' : List Job}, List.Sublist l' l → P l → P l') :
    ∀ (fuel : Nat) (st : QState), P (st.queue ++ st.running) →
      P ((processNextFuel isRun hasHandler fuel st).queue ++
        (processNextFuel isRun hasHandler fuel st).running) := by
  intro fuel
  induction fuel with
  | zero => intro st hP; exact hP
  | succ n ih =>
    intro st hP
    rw [processNextFuel]
    split
    · split
      · exact hP
      · rename_i job rest heq
        refine ih _ ?_
        obtain ⟨pre, post, hq, hrest, -, -⟩ := getNextJobFrom_spec heq
        unfold startJob
        split
        · refine hPerm ?_ hP
          subst hrest
          rw [hq]
          have h1 : (pre ++ job :: post) ++ st.running = pre ++ job :: (post ++ st.running) := by
            simp
          rw [h1]
          refine List.Perm.trans List.perm_middle ?_
          refine List.Perm.symm ?_
          have h2 : (pre ++ post) ++ (st.running ++ [job]) =
              ((pre ++ post) ++ st.running) ++ [job] := by
            simp
          rw [h2]
          have h3 := List.perm_append_singleton job ((pre ++ post) ++ st.running)
          refine h3.trans ?_
          simp [List.append_assoc]
        · refine hSub ?_ hP
          subst hrest
          rw [hq]
          exact List.Sublist.append
            (List.Sublist.append (List.Sublist.refl pre) (List.sublist_cons_self job post))
            (List.Sublist.refl st.running)
    · exact hP

lemma insertByPriority_perm (queue : List Job) (job : Job) :
    (insertByPriority queue job).Perm (job :: queue) := by
  induction queue with
  | nil => exact List.Perm.refl _
  | cons j rest ih =>
    rw [insertByPriority]
    split
    · exact List.Perm.refl _
    · exact List.Perm.trans (List.Perm.cons j ih) (List.Perm.swap job j rest)

lemma insertByPriority_ordered {queue : List Job} {job : Job} (hq : queueOrdered queue)
    (hid : ∀ k ∈ queue, k.id < job.id) : queueOrdered (insertByPriority queue job) := by
  induction queue with
  | nil => simp [insertByPriority, queueOrdered]
  | cons j rest ih =>
    obtain ⟨hj, hrest⟩ := List.pairwise_cons.mp hq
    rw [insertByPriority]
    split
    · rename_i hlt
      rw [queueOrdered, List.pairwise_cons]
      refine ⟨?_, hq⟩
      intro b hb
      rcases List.mem_cons.mp hb with rfl | hb'
      · exact Or.inl hlt
      · rcases hj b hb' with h | h
        · exact Or.inl (hlt.trans h)
        · exact Or.inl (h.1 ▸ hlt)
    · rename_i hge
      rw [queueOrdered, List.pairwise_cons]
      constructor
      · intro b hb
        have hbmem := (insertByPriority_perm rest job).mem_iff.mp hb
        rcases List.mem_cons.mp hbmem with rfl | hb'
        · have hle : j.priority ≤ b.priority := Nat.not_lt.mp hge
          rcases Nat.lt_or_eq_of_le hle with h | h
          · exact Or.inl h
          · exact Or.inr ⟨h, hid j (by simp)⟩
        · exact hj b hb'
      · exact ih hrest fun k hk => hid k (by simp [hk])

lemma removeFirstById_sublist (queue : List Job) (jobId : Nat) :
    List.Sublist (removeFirstById queue jobId) queue := by
  induction queue with
  | nil => exact List.Sublist.refl _
  | cons j rest ih =>
    rw [removeFirstById]
    split
    · exact List.sublist_cons_self j rest
    · exact List.Sublist.cons₂ j ih

lemma findJob_none_mem {st : QState} {dataObject : String} {type : JobType}
    (hf : findJob st dataObject type = none) :
    ∀ k ∈ st.queue ++ st.running, ¬(k.dataObject = dataObject ∧ k.type = type) := by
  unfold findJob at hf
  split at hf
  · cases hf
  · rename_i hq
    intro k hk
    rcases List.mem_append.mp hk with hk' | hk'
    · have := List.find?_eq_none.mp hq k hk'
      simpa using this
    · have := List.find?_eq_none.mp hf k hk'
      simpa using this

lemma enqueue_of_dup {isRun hasHandler : String → Bool} {st : QState} {dataObject : String}
    {type : JobType} {priority : Nat} {dependencies : List String} {existing : Job}
    (hf : findJob st dataObject type = some existing) :
    enqueue isRun hasHandler st dataObject type priority dependencies =
      (existing.id, { st with jobCounter := st.jobCounter + 1 }) := by
  simp only [enqueue, hf]

lemma enqueue_of_new {isRun hasHandler : String → Bool} {st : QState} {dataObject : String}
    {type : JobType} {priority : Nat} {dependencies : List String}
    (hf : findJob st dataObject type = none) :
    enqueue isRun hasHandler st dataObject type priority dependencies =
      (st.jobCounter + 1,
        processNext isRun hasHandler
          { st with
            jobCounter := st.jobCounter + 1
            queue := insertByPriority st.queue
              ⟨st.jobCounter + 1, dataObject, type, priority, dependencies⟩ }) := by
  simp only [enqueue, hf]

lemma processNext_ordered {isRun hasHandler : String → Bool} {st : QState}
    (h : queueOrdered st.queue) : queueOrdered (processNext isRun hasHandler st).queue :=
  List.Pairwise.sublist (processNextFuel_queue_sublist isRun hasHandler st.queue.length st) h

lemma processNext_idsBounded {isRun hasHandler : String → Bool} {st : QState}
    (h : idsBounded st) : idsBounded (processNext isRun hasHandler st) := by
  intro j hj
  have hc : (processNext isRun hasHandler st).jobCounter = st.jobCounter :=
    processNextFuel_jobCounter isRun hasHandler st.queue.length st
  rw [hc]
  have hmem : j ∈ st.queue ++ st.running := by
    refine processNextFuel_pres isRun hasHandler
      (fun l => j ∈ l → j ∈ st.queue ++ st.running) ?_ ?_ st.queue.length st
      (fun hx => hx) hj
    · intro l l' hperm hPl hj'
      exact hPl (hperm.mem_iff.mpr hj')
    · intro l l' hsub hPl hj'
      exact hPl (hsub.subset hj')
  exact h j hmem

lemma processNext_keysNodup {isRun hasHandler : String → Bool} {st : QState}
    (h : keysNodup st) : keysNodup (processNext isRun hasHandler st) := by
  refine processNextFuel_pres isRun hasHandler
    (fun l => (l.map jobKey).Nodup) ?_ ?_ st.queue.length st h
  · intro l l' hperm hP
    exact (hperm.map jobKey).nodup hP
  · intro l l' hsub hP
    exact (hsub.map jobKey).nodup hP

lemma reachable_inv {st : QState} (h : Reachable st) :
    queueOrdered st.queue ∧ idsBounded st ∧ keysNodup st := by
  induction h with
  | init maxConcurrent =>
    refine ⟨List.Pairwise.nil, ?_, ?_⟩
    · intro j hj
      simp at hj
    · simp [keysNodup]
  | enqueueStep isRun hasHandler st d t p deps hst ih =>
    obtain ⟨hord, hbound, hnodup⟩ := ih
    rcases hf : findJob st d t with _ | ex
    · rw [enqueue_of_new hf]
      dsimp only
      refine ⟨?_, ?_, ?_⟩
      · refine processNext_ordered ?_
        exact insertByPriority_ordered hord
          fun k hk => Nat.lt_succ_of_le (hbound k (List.mem_append_left _ hk))
      · refine processNext_idsBounded ?_
        intro j hj
        rcases List.mem_append.mp hj with hj' | hj'
        · rcases List.mem_cons.mp
            ((insertByPriority_perm st.queue _).mem_iff.mp hj') with rfl | hj''
          · exact Nat.le_refl _
          · exact Nat.le_succ_of_le (hbound j (List.mem_append_left _ hj''))
        · exact Nat.le_succ_of_le (hbound j (List.mem_append_right _ hj'))
      · refine processNext_keysNodup ?_
        have hperm :=
          (insertByPriority_perm st.queue
            ⟨st.jobCounter + 1, d, t, p, deps⟩).append_right st.running
        refine ((hperm.map jobKey).symm).nodup ?_
        rw [List.cons_append, List.map_cons, List.nodup_cons]
        refine ⟨?_, hnodup⟩
        intro hmem
        obtain ⟨k, hk, hkey⟩ := List.mem_map.mp hmem
        have h12 := Prod.ext_iff.mp hkey
        exact findJob_none_mem hf k hk ⟨h12.1, h12.2⟩
    · rw [enqueue_of_dup hf]
      dsimp only
      refine ⟨hord, ?_, hnodup⟩
      intro j hj
      exact Nat.le_succ_of_le (hbound j hj)
  | completeStep isRun hasHandler st jobId hst ih =>
    obtain ⟨hord, hbound, hnodup⟩ := ih
    unfold completeJob
    refine ⟨processNext_ordered hord, processNext_idsBounded ?_, processNext_keysNodup ?_⟩
    · intro j hj
      rcases List.mem_append.mp hj with hj' | hj'
      · exact hbound j (List.mem_append_left _ hj')
      · exact hbound j (List.mem_append_right _ ((List.filter_sublist _).subset hj'))
    · refine List.Sublist.nodup ?_ hnodup
      refine List.Sublist.map jobKey ?_
      exact List.Sublist.append (List.Sublist.refl st.queue) (List.filter_sublist _)
  | cancelStep st jobId hst ih =>
    obtain ⟨hord, hbound, hnodup⟩ := ih
    refine ⟨?_, ?_, ?_⟩
    · exact List.Pairwise.sublist (removeFirstById_sublist st.queue jobId) hord
    · intro j hj
      rcases List.mem_append.mp hj with hj' | hj'
      · exact hbound j
          (List.mem_append_left _ ((removeFirstById_sublist st.queue jobId).subset hj'))
      · exact hbound j (List.mem_append_right _ hj')
    · refine List.Sublist.nodup ?_ hnodup
      exact List.Sublist.map jobKey
        (List.Sublist.append (removeFirstById_sublist st.queue jobId) (List.Sublist.refl _))
  | clearStep st hst ih =>
    obtain ⟨hord, hbound, hnodup⟩ := ih
    refine ⟨List.Pairwise.nil, ?_, ?_⟩
    · intro j hj
      simp only [clearQueue, List.nil_append] at hj
      exact hbound j (List.mem_append_right _ hj)
    · refine List.Sublist.nodup ?_ hnodup
      exact List.Sublist.map jobKey
        (List.Sublist.append (List.nil_sublist _) (List.Sublist.refl _))

lemma find?_first_match_min {queue : List Job} {dep : String} {f : Job}
    (hsort : queue.Pairwise fun a b => a.priority ≤ b.priority)
    (hfind : queue.find? (fun k => decide (k.dataObject = dep)) = some f) :
    ∀ k ∈ queue, k.dataObject = dep → f.priority ≤ k.priority := by
  induction queue with
  | nil => cases hfind
  | cons a t ih =>
    obtain ⟨ha, ht⟩ := List.pairwise_cons.mp hsort
    by_cases hd : a.dataObject = dep
    · rw [List.find?_cons_of_pos _ (by simpa using hd)] at hfind
      injection hfind with hfind
      subst hfind
      intro k hk _
      rcases List.mem_cons.mp hk with rfl | hk'
      · exact Nat.le_refl _
      · exact ha k hk'
    · rw [List.find?_cons_of_neg _ (by simpa using hd)] at hfind
      intro k hk hkd
      rcases List.mem_cons.mp hk with rfl | hk'
      · exact absurd hkd hd
      · exact ih ht hfind k hk' hkd

lemma depSatisfied_iff {isRun : String → Bool} {queue : List Job} (job : Job) (dep : String)
    (hsort : queue.Pairwise fun a b => a.priority ≤ b.priority) :
    (!isRun dep &&
        match queue.find? (fun j => decide (j.dataObject = dep)) with
        | some depJob => decide (job.priority < depJob.priority)
        | none => true) = true ↔
      isRun dep = false ∧ ∀ k ∈ queue, k.dataObject = dep → job.priority < k.priority := by
  rcases hfind : queue.find? (fun j => decide (j.dataObject = dep)) with _ | f
  · simp only [hfind, Bool.and_true]
    constructor
    · intro h
      refine ⟨by simpa using h, ?_⟩
      intro k hk hkd
      have := List.find?_eq_none.mp hfind k hk
      simp [hkd] at this
    · intro h
      simpa using h.1
  · simp only [hfind, Bool.and_eq_true]
    constructor
    · intro h
      refine ⟨by simpa using h.1, ?_⟩
      have hfd : f.dataObject = dep := by simpa using List.find?_some hfind
      have hmin := find?_first_match_min hsort hfind
      intro k hk hkd
      have hjf : job.priority < f.priority := by simpa using h.2
      exact Nat.lt_of_lt_of_le hjf (hmin k hk hkd)
    · intro h
      have hfmem := List.mem_of_find?_eq_some hfind
      have hfd : f.dataObject = dep := by simpa using List.find?_some hfind
      exact ⟨by simpa using h.1, by simpa using h.2 f hfmem hfd⟩

lemma areDependenciesSatisfied_iff {isRun : String → Bool} {queue : List Job} {job : Job}
    (hsort : queue.Pairwise fun a b => a.priority ≤ b.priority) :
    areDependenciesSatisfied isRun queue job = true ↔
      ∀ dep ∈ job.dependencies, isRun dep = false ∧
        ∀ k ∈ queue, k.dataObject = dep → job.priority < k.priority := by
  unfold areDependenciesSatisfied
  rw [List.all_eq_true]
  constructor
  · intro h dep hdep
    exact (depSatisfied_iff job dep hsort).mp (h dep hdep)
  · intro h dep hdep
    exact (depSatisfied_iff job dep hsort).mpr (h dep hdep)

lemma processNext_stop_none {isRun hasHandler : String → Bool} {st : QState}
    (hnext : getNextJob isRun st.queue = none) :
    processNext isRun hasHandler st = st := by
  unfold processNext
  rcases hq : st.queue with _ | ⟨a, t⟩
  · rfl
  · rw [List.length_cons, processNextFuel]
    split
    · rw [hnext]
    · rfl

lemma processNext_stop_full {isRun hasHandler : String → Bool} {st : QState}
    (hfull : ¬st.running.length < st.maxConcurrent) :
    processNext isRun hasHandler st = st := by
  unfold processNext
  rcases hq : st.queue with _ | ⟨a, t⟩
  · rfl
  · rw [List.length_cons, processNextFuel]
    split
    · rename_i hcond
      rw [Bool.and_eq_true] at hcond
      exact absurd (by simpa using hcond.1) hfull
    · rfl

lemma processNext_step {isRun hasHandler : String → Bool} {st : QState} {job : Job}
    {rest : List Job} (hroom : st.running.length < st.maxConcurrent)
    (hnext : getNextJob isRun st.queue = some (job, rest)) :
    processNext isRun hasHandler st =
      processNext isRun hasHandler (startJob hasHandler { st with queue := rest } job) := by
  have hne : st.queue ≠ [] := by
    intro h0
    rw [h0] at hnext
    cases hnext
  obtain ⟨pre, post, hq, hrest, -, -⟩ := getNextJobFrom_spec hnext
  have hlen : st.queue.length = rest.length + 1 := by
    rw [hq, hrest]
    simp only [List.length_append, List.length_cons]
    omega
  unfold processNext
  rw [hlen, processNextFuel]
  split
  · rw [hnext, startJob_queue]
  · rename_i hcond
    exfalso
    apply hcond
    rw [Bool.and_eq_true]
    constructor
    · simpa using hroom
    · simpa using hne

/-- **C2**.  The dispatch pass: (1) on a priority-sorted queue (an
invariant of every reachable state, `reachable_inv`) a candidate's
dependencies are all satisfied exactly when each declared dependency is
neither currently running (`isSyncRunning`) nor present anywhere in the
queue at priority equal to or higher than the candidate's; (2) when
`getNextJob` yields a job, it is the first queued job whose dependencies
are satisfied, and it is removed from the queue; (3) when it yields
none, no queued job qualifies; (4,5) in that case — or when the running
count has reached `maxConcurrent` — the pass starts nothing and leaves
the state unchanged; (6) otherwise the chosen job is removed and started
(appended to the running set) and the pass continues. -/
theorem dispatch_pass :
    (∀ (isRun : String → Bool) (queue : List Job) (job : Job),
        (queue.Pairwise fun a b => a.priority ≤ b.priority) →
        (areDependenciesSatisfied isRun queue job = true ↔
          ∀ dep ∈ job.dependencies, isRun dep = false ∧
            ∀ k ∈ queue, k.dataObject = dep → job.priority < k.priority)) ∧
      (∀ (isRun : String → Bool) (queue : List Job) (job : Job) (rest : List Job),
        getNextJob isRun queue = some (job, rest) →
        ∃ pre post, queue = pre ++ job :: post ∧ rest = pre ++ post ∧
          areDependenciesSatisfied isRun queue job = true ∧
          ∀ k ∈ pre, areDependenciesSatisfied isRun queue k = false) ∧
      (∀ (isRun : String → Bool) (queue : List Job),
        getNextJob isRun queue = none →
        ∀ k ∈ queue, areDependenciesSatisfied isRun queue k = false) ∧
      (∀ (isRun hasHandler : String → Bool) (st : QState),
        getNextJob isRun st.queue = none → processNext isRun hasHandler st = st) ∧
      (∀ (isRun hasHandler : String → Bool) (st : QState),
        ¬st.running.length < st.maxConcurrent → processNext isRun hasHandler st = st) ∧
      (∀ (isRun hasHandler : String → Bool) (st : QState) (job : Job) (rest : List Job),
        st.running.length < st.maxConcurrent →
        getNextJob isRun st.queue = some (job, rest) →
        hasHandler job.dataObject = true →
        processNext isRun hasHandler st =
          processNext isRun hasHandler
            { st with queue := rest, running := st.running ++ [job] }) := by
  refine ⟨?_, ?_, ?_, ?_, ?_, ?_⟩
  · intro isRun queue job hsort
    exact areDependenciesSatisfied_iff hsort
  · intro isRun queue job rest h
    exact getNextJobFrom_spec h
  · intro isRun queue h
    exact getNextJobFrom_none h
  · intro isRun hasHandler st h
    exact processNext_stop_none h
  · intro isRun hasHandler st h
    exact processNext_stop_full h
  · intro isRun hasHandler st job rest hroom hnext hH
    rw [processNext_step hroom hnext]
    have hs : startJob hasHandler { st with queue := rest } job =
        { st with queue := rest, running := st.running ++ [job] } := by
      unfold startJob
      rw [if_pos hH]
    rw [hs]

/-- Witness for `dispatch_pass`: on the queue `[products (NORMAL),
inventory (NORMAL, depends on products)]` with nothing running in
`SyncState`, the satisfaction test for `inventory` matches the spec
condition, and a pass over that queue with one free slot removes and
starts `products` (the first satisfiable job), leaving `inventory`
queued behind the now-running `products`. -/
theorem dispatch_pass_witness :
    ([⟨1, "products", JobType.sync, 1, []⟩,
        ⟨2, "inventory", JobType.sync, 1, ["products"]⟩] : List Job).Pairwise
      (fun a b => a.priority ≤ b.priority) ∧
      (areDependenciesSatisfied (fun _ => false)
          [⟨1, "products", JobType.sync, 1, []⟩,
            ⟨2, "inventory", JobType.sync, 1, ["products"]⟩]
          ⟨2, "inventory", JobType.sync, 1, ["products"]⟩ = true ↔
        ∀ dep ∈ (⟨2, "inventory", JobType.sync, 1, ["products"]⟩ : Job).dependencies,
          (fun _ => false : String → Bool) dep = false ∧
            ∀ k ∈ ([⟨1, "products", JobType.sync, 1, []⟩,
                ⟨2, "inventory", JobType.sync, 1, ["products"]⟩] : List Job),
              k.dataObject = dep →
                (⟨2, "inventory", JobType.sync, 1, ["products"]⟩ : Job).priority <
                  k.priority) ∧
      processNext (fun _ => false) (fun _ => true)
          ⟨[⟨1, "products", JobType.sync, 1, []⟩,
            ⟨2, "inventory", JobType.sync, 1, ["products"]⟩], [], 1, 2⟩ =
        processNext (fun _ => false) (fun _ => true)
          ⟨[⟨2, "inventory", JobType.sync, 1, ["products"]⟩],
            [] ++ [⟨1, "products", JobType.sync, 1, []⟩], 1, 2⟩ :=
  ⟨by simp [List.pairwise_cons],
   dispatch_pass.1 (fun _ => false) _ _ (by simp [List.pairwise_cons]),
   dispatch_pass.2.2.2.2.2 (fun _ => false) (fun _ => true) _ _ _ (by decide) rfl rfl⟩

/-- **C5**.  `enqueue` deduplicates: when a job for the same
`(dataObject, type)` is already queued or running, it returns the
existing job's id and leaves both the queue and the running set
unchanged; in particular (second conjunct, evaluated) enqueueing
`(products, sync)` twice while the first job is still queued returns
the same id both times and leaves the queue length at 1. -/
theorem enqueue_dedup :
    (∀ (isRun hasHandler : String → Bool) (st : QState) (dataObject : String) (type : JobType)
        (priority : Nat) (dependencies : List String) (existing : Job),
      findJob st dataObject type = some existing →
        (enqueue isRun hasHandler st dataObject type priority dependencies).1 = existing.id ∧
        (enqueue isRun hasHandler st dataObject type priority dependencies).2.queue =
          st.queue ∧
        (enqueue isRun hasHandler st dataObject type priority dependencies).2.running =
          st.running) ∧
      ((enqueue (fun _ => true) (fun _ => true)
          (enqueue (fun _ => true) (fun _ => true)
            ⟨[], [], 1, 0⟩ "products" JobType.sync 1 ["dep"]).2
          "products" JobType.sync 1 ["dep"]).1 =
        (enqueue (fun _ => true) (fun _ => true)
          ⟨[], [], 1, 0⟩ "products" JobType.sync 1 ["dep"]).1 ∧
      (enqueue (fun _ => true) (fun _ => true)
          (enqueue (fun _ => true) (fun _ => true)
            ⟨[], [], 1, 0⟩ "products" JobType.sync 1 ["dep"]).2
          "products" JobType.sync 1 ["dep"]).2.queue.length = 1 ∧
      (enqueue (fun _ => true) (fun _ => true)
          ⟨[], [], 1, 0⟩ "products" JobType.sync 1 ["dep"]).2.queue.length = 1) := by
  refine ⟨?_, by decide, by decide, by decide⟩
  intro isRun hasHandler st dataObject type priority dependencies existing hf
  rw [enqueue_of_dup hf]
  exact ⟨rfl, rfl, rfl⟩

/-- Witness for `enqueue_dedup`: with job 1 for `(products, sync)` still
queued, a duplicate `enqueue` returns id 1 and the queue keeps exactly
its single entry. -/
theorem enqueue_dedup_witness :
    findJob ⟨[⟨1, "products", JobType.sync, 1, ["dep"]⟩], [], 1, 1⟩ "products" JobType.sync =
      some ⟨1, "products", JobType.sync, 1, ["dep"]⟩ ∧
      (enqueue (fun _ => true) (fun _ => true)
        ⟨[⟨1, "products", JobType.sync, 1, ["dep"]⟩], [], 1, 1⟩
        "products" JobType.sync 1 ["dep"]).1 = 1 ∧
      (enqueue (fun _ => true) (fun _ => true)
        ⟨[⟨1, "products", JobType.sync, 1, ["dep"]⟩], [], 1, 1⟩
        "products" JobType.sync 1 ["dep"]).2.queue =
        [⟨1, "products", JobType.sync, 1, ["dep"]⟩] :=
  ⟨rfl,
   (enqueue_dedup.1 (fun _ => true) (fun _ => true)
     ⟨[⟨1, "products", JobType.sync, 1, ["dep"]⟩], [], 1, 1⟩
     "products" JobType.sync 1 ["dep"] ⟨1, "products", JobType.sync, 1, ["dep"]⟩ rfl).1,
   (enqueue_dedup.1 (fun _ => true) (fun _ => true)
     ⟨[⟨1, "products", JobType.sync, 1, ["dep"]⟩], [], 1, 1⟩
     "products" JobType.sync 1 ["dep"] ⟨1, "products", JobType.sync, 1, ["dep"]⟩ rfl).2.1⟩

/-- **C6**.  In every reachable queue state the pending queue is ordered
by priority (HIGH before NORMAL before LOW) and, among equal priorities,
by arrival order (job ids increase in arrival order); consequently
(second part, evaluated) after enqueueing a NORMAL job `b` and then a
HIGH job `c` for different kinds with no dependencies behind a running
job `a`, the queue reads `[c, b]`, and when `a` completes, the HIGH job
`c` is the one dispatched. -/
theorem queue_priority_fifo :
    (∀ st : QState, Reachable st → queueOrdered st.queue) ∧
      ((enqueue (fun _ => false) (fun _ => true)
          (enqueue (fun _ => false) (fun _ => true)
            (enqueue (fun _ => false) (fun _ => true)
              ⟨[], [], 1, 0⟩ "a" JobType.sync 1 []).2
            "b" JobType.sync 1 []).2
          "c" JobType.sync 0 []).2.queue.map (fun j => j.dataObject) = ["c", "b"] ∧
      (completeJob (fun _ => false) (fun _ => true)
          (enqueue (fun _ => false) (fun _ => true)
            (enqueue (fun _ => false) (fun _ => true)
              (enqueue (fun _ => false) (fun _ => true)
                ⟨[], [], 1, 0⟩ "a" JobType.sync 1 []).2
              "b" JobType.sync 1 []).2
            "c" JobType.sync 0 []).2 1).running.map (fun j => j.dataObject) = ["c"]) :=
  ⟨fun _ h => (reachable_inv h).1, by decide, by decide⟩

/-- Witness for `queue_priority_fifo`: the priority/FIFO ordering holds
at the concrete reachable state built by the three enqueues above. -/
theorem queue_priority_fifo_witness :
    queueOrdered (enqueue (fun _ => false) (fun _ => true)
        (enqueue (fun _ => false) (fun _ => true)
          (enqueue (fun _ => false) (fun _ => true)
            ⟨[], [], 1, 0⟩ "a" JobType.sync 1 []).2
          "b" JobType.sync 1 []).2
        "c" JobType.sync 0 []).2.queue :=
  queue_priority_fifo.1 _
    (Reachable.enqueueStep _ _ _ _ _ _ _
      (Reachable.enqueueStep _ _ _ _ _ _ _
        (Reachable.enqueueStep _ _ _ _ _ _ _ (Reachable.init 1))))

/-- **C3** (counterexample).  Dedup is per `(dataObject, type)`, not per
kind: with `maxConcurrent = 2`, enqueueing a `sync` job and then a
`webhook` job for the same kind `products` reaches a state whose running
set holds two `products` jobs at once. -/
theorem single_running_per_kind_counterexample :
    Reachable (enqueue (fun _ => true) (fun _ => true)
        (enqueue (fun _ => true) (fun _ => true)
          ⟨[], [], 2, 0⟩ "products" JobType.sync 1 []).2
        "products" JobType.webhook 0 []).2 ∧
      (enqueue (fun _ => true) (fun _ => true)
        (enqueue (fun _ => true) (fun _ => true)
          ⟨[], [], 2, 0⟩ "products" JobType.sync 1 []).2
        "products" JobType.webhook 0 []).2.running.map (fun j => j.dataObject) =
        ["products", "products"] :=
  ⟨Reachable.enqueueStep _ _ _ _ _ _ _
    (Reachable.enqueueStep _ _ _ _ _ _ _ (Reachable.init 2)),
   by decide⟩

/-- **C3** (amended).  In every reachable state of the job queue, at
most one job per `(dataObject kind, job type)` pair is in the running
set (the dedup key of `findJob` includes the job type, so one `sync` and
one `webhook` job of the same kind can run concurrently when
`maxConcurrent` allows). -/
theorem single_running_per_kind_and_type (st : QState) (h : Reachable st) :
    (st.running.map jobKey).Nodup := by
  have hkeys := (reachable_inv h).2.2
  refine List.Sublist.nodup ?_ hkeys
  exact List.Sublist.map jobKey (List.sublist_append_right _ _)

/-- Witness for `single_running_per_kind_and_type` at the concrete
reachable state of the counterexample: its two running `products` jobs
have distinct `(kind, type)` keys. -/
theorem single_running_per_kind_and_type_witness :
    ((enqueue (fun _ => true) (fun _ => true)
        (enqueue (fun _ => true) (fun _ => true)
          ⟨[], [], 2, 0⟩ "products" JobType.sync 1 []).2
        "products" JobType.webhook 0 []).2.running.map jobKey).Nodup :=
  single_running_per_kind_and_type _
    (Reachable.enqueueStep _ _ _ _ _ _ _
      (Reachable.enqueueStep _ _ _ _ _ _ _ (Reachable.init 2)))

lemma processItemStep_counts (s : SyncStats) (out : Except String ItemResult) :
    (processItemStep s out).processed = s.processed + 1 ∧
      (processItemStep s out).succeeded =
        s.succeeded +
          (if (match out with | .ok r => r.success | .error _ => false) then 1 else 0) ∧
      (processItemStep s out).failed =
        s.failed +
          (if (match out with | .ok r => r.success | .error _ => false) then 0 else 1) := by
  rcases out with e | r
  · exact ⟨rfl, by simp [processItemStep], by simp [processItemStep]⟩
  · rcases hs : r.success
    · simp only [processItemStep, hs]
      exact ⟨rfl, by simp, by simp⟩
    · simp only [processItemStep, hs]
      cases r.action <;> exact ⟨rfl, by simp, by simp⟩

lemma foldl_processItemStep_counts {T : Type} (processor : T → Except String ItemResult) :
    ∀ (items : List T) (s : SyncStats),
      ((items.foldl (fun acc item => processItemStep acc (processor item)) s).processed =
          s.processed + items.length) ∧
        ((items.foldl (fun acc item => processItemStep acc (processor item)) s).succeeded =
          s.succeeded + items.countP (fun item =>
            match processor item with | .ok r => r.success | .error _ => false)) ∧
        ((items.foldl (fun acc item => processItemStep acc (processor item)) s).failed =
          s.failed + items.countP (fun item =>
            match processor item with | .ok r => !r.success | .error _ => true)) := by
  intro items
  induction items with
  | nil => intro s; exact ⟨by simp, by simp, by simp⟩
  | cons a t ih =>
    intro s
    simp only [List.foldl_cons, List.countP_cons, List.length_cons]
    obtain ⟨h1, h2, h3⟩ := ih (processItemStep s (processor a))
    obtain ⟨p1, p2, p3⟩ := processItemStep_counts s (processor a)
    refine ⟨?_, ?_, ?_⟩
    · rw [h1, p1]
      omega
    · rw [h2, p2]
      rcases hpa : processor a with e | r
      · simp
      · rcases hr : r.success <;> (simp [hr]; try omega)
    · rw [h3, p3]
      rcases hpa : processor a with e | r
      · simp only [hpa]
        simp
        omega
      · rcases hr : r.success <;> (simp [hr]; try omega)

lemma batchChunks_foldl {T : Type} (f : SyncStats → T → SyncStats) (init : SyncStats) :
    ∀ (fuel : Nat) (items : List T) (batchSize : Nat), batchSize ≠ 0 →
      items.length ≤ fuel →
      (batchChunks fuel items batchSize).foldl (fun s chunk => chunk.foldl f s) init =
        items.foldl f init := by
  intro fuel
  induction fuel generalizing init with
  | zero =>
    intro items batchSize hbs hlen
    have : items = [] := List.eq_nil_of_length_eq_zero (Nat.le_zero.mp hlen)
    subst this
    rfl
  | succ n ih =>
    intro items batchSize hbs hlen
    rcases items with _ | ⟨a, t⟩
    · rfl
    · have hstep : batchChunks (n + 1) (a :: t) batchSize =
          (a :: t).take batchSize :: batchChunks n ((a :: t).drop batchSize) batchSize := rfl
      rw [hstep, List.foldl_cons]
      rw [ih _ _ batchSize hbs ?_]
      · rw [← List.foldl_append, List.take_append_drop]
      · have hd : ((a :: t).drop batchSize).length = (a :: t).length - batchSize := by
          simp
        rw [hd]
        simp only [List.length_cons] at hlen ⊢
        omega

lemma processBatch_eq_foldl {T : Type} (items : List T)
    (processor : T → Except String ItemResult) (batchSize : Nat) (hbs : batchSize ≠ 0) :
    processBatch items processor batchSize =
      items.foldl (fun s item => processItemStep s (processor item)) emptyStats :=
  batchChunks_foldl _ emptyStats items.length items batchSize hbs (Nat.le_refl _)

/-- **C7**.  For every batch passed to `processBatch` (with a positive
batch size, the TS default being 10): every item is processed
(`processed` equals the item count); an item whose processor throws, or
returns an unsuccessful result, is counted in `failed` without stopping
the others; the successful items are counted in `succeeded`; and
`succeeded + failed = processed`.  The spec's 10-item instance with
items 3 and 7 throwing is evaluated in the witness. -/
theorem processBatch_counts (T : Type) (items : List T)
    (processor : T → Except String ItemResult) (batchSize : Nat) (hbs : batchSize ≠ 0) :
    (processBatch items processor batchSize).processed = items.length ∧
      (processBatch items processor batchSize).succeeded =
        items.countP (fun item =>
          match processor item with | .ok r => r.success | .error _ => false) ∧
      (processBatch items processor batchSize).failed =
        items.countP (fun item =>
          match processor item with | .ok r => !r.success | .error _ => true) ∧
      (processBatch items processor batchSize).succeeded +
          (processBatch items processor batchSize).failed = items.length := by
  obtain ⟨h1, h2, h3⟩ := foldl_processItemStep_counts processor items emptyStats
  rw [processBatch_eq_foldl items processor batchSize hbs]
  refine ⟨by simpa [emptyStats] using h1, by simpa [emptyStats] using h2,
    by simpa [emptyStats] using h3, ?_⟩
  rw [h2, h3]
  simp only [emptyStats, Nat.zero_add]
  clear h1 h2 h3
  induction items with
  | nil => rfl
  | cons a t iht =>
    simp only [List.countP_cons, List.length_cons]
    rcases hpa : processor a with e | r
    · simp only [hpa]
      simp
      omega
    · rcases hr : r.success <;> simp only [hpa, hr] <;> simp <;> omega

/-- Witness for `processBatch_counts`, evaluating the spec's instance:
a batch of 10 items in which items 3 and 7 throw yields
`{processed := 10, succeeded := 8, failed := 2}`, and all 8 other items
complete (they are the succeeded ones). -/
theorem processBatch_counts_witness :
    (10 : Nat) ≠ 0 ∧
      (processBatch [1, 2, 3, 4, 5, 6, 7, 8, 9, 10]
        (fun n : Nat =>
          if n = 3 ∨ n = 7 then Except.error "boom"
          else Except.ok ⟨true, ItemAction.updated, "item", none, none⟩) 10).processed = 10 ∧
      (processBatch [1, 2, 3, 4, 5, 6, 7, 8, 9, 10]
        (fun n : Nat =>
          if n = 3 ∨ n = 7 then Except.error "boom"
          else Except.ok ⟨true, ItemAction.updated, "item", none, none⟩) 10).succeeded = 8 ∧
      (processBatch [1, 2, 3, 4, 5, 6, 7, 8, 9, 10]
        (fun n : Nat =>
          if n = 3 ∨ n = 7 then Except.error "boom"
          else Except.ok ⟨true, ItemAction.updated, "item", none, none⟩) 10).failed = 2 :=
  ⟨by decide,
   by
    rw [(processBatch_counts Nat [1, 2, 3, 4, 5, 6, 7, 8, 9, 10]
      (fun n : Nat =>
        if n = 3 ∨ n = 7 then Except.error "boom"
        else Except.ok ⟨true, ItemAction.updated, "item", none, none⟩) 10 (by decide)).1]
    rfl,
   by
    rw [(processBatch_counts Nat [1, 2, 3, 4, 5, 6, 7, 8, 9, 10]
      (fun n : Nat =>
        if n = 3 ∨ n = 7 then Except.error "boom"
        else Except.ok ⟨true, ItemAction.updated, "item", none, none⟩) 10 (by decide)).2.1]
    decide,
   by
    rw [(processBatch_counts Nat [1, 2, 3, 4, 5, 6, 7, 8, 9, 10]
      (fun n : Nat =>
        if n = 3 ∨ n = 7 then Except.error "boom"
        else Except.ok ⟨true, ItemAction.updated, "item", none, none⟩) 10 (by decide)).2.2.1]
    decide⟩

lemma updateSyncStatus_jobLogs (db : Db) (dataObject status : String) :
    (updateSyncStatus db dataObject status).jobLogs = db.jobLogs := by
  unfold updateSyncStatus
  split <;> rfl

lemma updateJobLog_syncStatus (db : Db) (jobId : Nat) (f : JobLogRow → JobLogRow) :
    (updateJobLog db jobId f).syncStatus = db.syncStatus :=
  rfl

lemma find?_map_setStatus (dataObject status : String) :
    ∀ l : List (String × String), l.any (fun p => decide (p.1 = dataObject)) = true →
      Option.map (fun x : String × String => x.2)
        ((l.map (fun p => if p.1 = dataObject then (p.1, status) else p)).find?
          (fun p => decide (p.1 = dataObject))) = some status := by
  intro l
  induction l with
  | nil => intro h; cases h
  | cons p t ih =>
    intro hany
    by_cases hp : p.1 = dataObject
    · rw [List.map_cons, if_pos hp, List.find?_cons_of_pos _ (by simpa using hp)]
      rfl
    · rw [List.map_cons, if_neg hp, List.find?_cons_of_neg _ (by simpa using hp)]
      refine ih ?_
      rw [List.any_cons] at hany
      have hpf : decide (p.1 = dataObject) = false := by simpa using hp
      rw [hpf] at hany
      simpa using hany

lemma getSyncStatus_updateSyncStatus (db : Db) (dataObject status : String) :
    getSyncStatus (updateSyncStatus db dataObject status) dataObject = some status := by
  unfold getSyncStatus updateSyncStatus
  split
  · rename_i hany
    exact find?_map_setStatus dataObject status db.syncStatus hany
  · rename_i hany
    dsimp only
    rw [find?_append_of_none]
    · rw [List.find?_cons_of_pos _ (by simp)]
      rfl
    · intro x hx
      by_cases hc : x.1 = dataObject
      · exact absurd (by rw [List.any_eq_true]; exact ⟨x, hx, decide_eq_true hc⟩) hany
      · simpa using hc

lemma map_updateJobLog_fresh {rows : List JobLogRow} {jobId : Nat}
    (h : ∀ r ∈ rows, r.id ≠ jobId) (f : JobLogRow → JobLogRow) :
    rows.map (fun r => if r.id = jobId then f r else r) = rows := by
  induction rows with
  | nil => rfl
  | cons a t ih =>
    rw [List.map_cons, if_neg (h a (by simp)), ih fun r hr => h r (by simp [hr])]

lemma handleSync_error_jobLogs (db : Db) (name e : String) :
    (handleSync db name (Except.error e)).2.jobLogs =
      ((db.jobLogs ++
            [(⟨db.jobLogs.length + 1, name, "sync", "queued", 0, 0, 0, none⟩ : JobLogRow)]).map
          (fun r : JobLogRow => if r.id = db.jobLogs.length + 1 then
            { r with status := "running" } else r)).map
        (fun r : JobLogRow => if r.id = db.jobLogs.length + 1 then
          { r with status := "failed", errorMessage := some e } else r) := by
  simp only [handleSync, markJobFailed, markSyncFailed, markJobStarted, markSyncStarted,
    createJobLog, updateJobLog, updateSyncStatus_jobLogs]

/-- **C8**.  When the handler's sync step throws (snapshot read or delta
computation — `this.sync()` produces an error), `handleSync` sets
`SyncState.status` to `failed` for that kind, persists the error message
to the job-log entry it created (which ends in status `failed`), and
rethrows the very same error, which the job queue's `startJob` catch
turns into a failed job (`startJobResultStatus`); nothing in the control
flow retries: the single outcome of the single `sync()` invocation
decides the job.  The freshness hypothesis says the new job-log id is
unused, which `createJobLog`'s sequential id assignment guarantees. -/
theorem handleSync_failure (db : Db) (name e : String)
    (hfresh : ∀ r ∈ db.jobLogs, r.id ≠ db.jobLogs.length + 1) :
    (handleSync db name (Except.error e)).1 = Except.error e ∧
      startJobResultStatus (handleSync db name (Except.error e)).1 = "failed" ∧
      getSyncStatus (handleSync db name (Except.error e)).2 name = some "failed" ∧
      findJobLog (handleSync db name (Except.error e)).2 (db.jobLogs.length + 1) =
        some ⟨db.jobLogs.length + 1, name, "sync", "failed", 0, 0, 0, some e⟩ := by
  refine ⟨rfl, rfl, ?_, ?_⟩
  · exact getSyncStatus_updateSyncStatus
      (markJobStarted (markSyncStarted (createJobLog db name "sync").2 name)
        (createJobLog db name "sync").1) name "failed"
  · unfold findJobLog
    rw [handleSync_error_jobLogs, List.map_append, map_updateJobLog_fresh hfresh,
      List.map_append, map_updateJobLog_fresh hfresh]
    rw [find?_append_of_none]
    · simp
    · intro r hr
      simpa using hfresh r hr

/-- Witness for `handleSync_failure` on the empty database: the sync
error `boom` for `products` marks the sync state failed, persists the
message in job-log entry 1, and is rethrown. -/
theorem handleSync_failure_witness :
    (∀ r ∈ (⟨[], []⟩ : Db).jobLogs, r.id ≠ (⟨[], []⟩ : Db).jobLogs.length + 1) ∧
      (handleSync ⟨[], []⟩ "products" (Except.error "boom")).1 = Except.error "boom" ∧
      startJobResultStatus (handleSync ⟨[], []⟩ "products" (Except.error "boom")).1 =
        "failed" ∧
      getSyncStatus (handleSync ⟨[], []⟩ "products" (Except.error "boom")).2 "products" =
        some "failed" ∧
      findJobLog (handleSync ⟨[], []⟩ "products" (Except.error "boom")).2 1 =
        some ⟨1, "products", "sync", "failed", 0, 0, 0, some "boom"⟩ :=
  ⟨by simp,
   (handleSync_failure ⟨[], []⟩ "products" "boom" (by simp)).1,
   (handleSync_failure ⟨[], []⟩ "products" "boom" (by simp)).2.1,
   (handleSync_failure ⟨[], []⟩ "products" "boom" (by simp)).2.2.1,
   (handleSync_failure ⟨[], []⟩ "products" "boom" (by simp)).2.2.2⟩

/-- **C9** (counterexample).  The claim promises an
authentication-failure response for every signature header that does
not match the computed digest.  But `crypto.timingSafeEqual` throws a
`RangeError` when the header's byte length differs from the digest's
(the base64 SHA-256 digest is always 44 bytes), and neither
`verifyWebhookSignature` nor `processWebhook` catches it, so such a
request is never answered 401 — the error propagates out of the
handler.  Concretely, with digest `secbody` (7 bytes) and the 3-byte
header `zzz`, the call throws instead of rejecting with 401. -/
theorem webhook_hmac_gate_counterexample :
    (fun s b => s ++ b : String → String → String) "sec" "body" ≠ "zzz" ∧
      processWebhook (fun s b => s ++ b) (some "sec") (fun _ => ⟨true, "webhook"⟩)
        ⟨some "zzz", some "body", ⟨some "1", none⟩⟩ "orders/create" =
        Except.error "Input buffers must have the same byte length" :=
  ⟨by decide, rfl⟩

/-- **C9** (amended).  With a secret configured and both the
`x-shopify-hmac-sha256` header and the raw body present: a header that
does not match the HMAC digest of the raw body but has the digest's
byte length is answered 401 with no event stored and no job enqueued; a
header whose byte length differs from the digest's makes
`timingSafeEqual` throw, and the error propagates uncaught out of
`processWebhook` — no 401, but still nothing stored and no job
enqueued; a matching header whose topic maps to a recognized, enabled,
webhook-triggered kind stores exactly one event and enqueues exactly
one HIGH-priority webhook job for that kind. -/
theorem webhook_hmac_gate :
    (∀ (hmacSha256Base64 : String → String → String) (secret : String)
        (getConfig : String → DataObjectCfg) (req : WebhookRequest)
        (topic header body : String),
      req.hmacHeader = some header → req.rawBody = some body →
      hmacSha256Base64 secret body ≠ header →
      (hmacSha256Base64 secret body).utf8ByteSize = header.utf8ByteSize →
      processWebhook hmacSha256Base64 (some secret) getConfig req topic =
        Except.ok ⟨401, [], []⟩) ∧
      (∀ (hmacSha256Base64 : String → String → String) (secret : String)
          (getConfig : String → DataObjectCfg) (req : WebhookRequest)
          (topic header body : String),
        req.hmacHeader = some header → req.rawBody = some body →
        (hmacSha256Base64 secret body).utf8ByteSize ≠ header.utf8ByteSize →
        processWebhook hmacSha256Base64 (some secret) getConfig req topic =
          Except.error "Input buffers must have the same byte length") ∧
      (∀ (hmacSha256Base64 : String → String → String) (secret : String)
          (getConfig : String → DataObjectCfg) (req : WebhookRequest)
          (topic header body dataObject : String),
        req.hmacHeader = some header → req.rawBody = some body →
        hmacSha256Base64 secret body = header →
        topicToDataObject topic = some dataObject →
        (getConfig dataObject).enabled = true →
        (getConfig dataObject).trigger = "webhook" →
        (processWebhook hmacSha256Base64 (some secret) getConfig req topic).map
            WebhookResult.status = Except.ok 200 ∧
          (processWebhook hmacSha256Base64 (some secret) getConfig req topic).map
            (fun r => r.storedEvents.length) = Except.ok 1 ∧
          (processWebhook hmacSha256Base64 (some secret) getConfig req topic).map
            WebhookResult.enqueued =
            Except.ok [⟨dataObject, JobType.webhook, JobPriority.HIGH⟩]) := by
  refine ⟨?_, ?_, ?_⟩
  · intro hmacSha256Base64 secret getConfig req topic header body hH hB hne hlen
    rcases req with ⟨rh, rb, payload⟩
    simp only at hH hB
    subst hH
    subst hB
    unfold processWebhook verifyWebhookSignature timingSafeEqual
    dsimp only
    rw [if_pos hlen]
    have hd : decide (hmacSha256Base64 secret body = header) = false := decide_eq_false hne
    simp [hd]
  · intro hmacSha256Base64 secret getConfig req topic header body hH hB hlen
    rcases req with ⟨rh, rb, payload⟩
    simp only at hH hB
    subst hH
    subst hB
    unfold processWebhook verifyWebhookSignature timingSafeEqual
    dsimp only
    rw [if_neg hlen]
  · intro hmacSha256Base64 secret getConfig req topic header body dataObject hH hB heq htopic
      henabled htrigger
    rcases req with ⟨rh, rb, payload⟩
    simp only at hH hB
    subst hH
    subst hB
    unfold processWebhook verifyWebhookSignature timingSafeEqual
    dsimp only
    rw [if_pos (congrArg String.utf8ByteSize heq)]
    have hd : decide (hmacSha256Base64 secret body = header) = true := decide_eq_true heq
    simp [hd, Except.map, processWebhookBody, htopic, henabled, htrigger]

/-- Witness for `webhook_hmac_gate` with the digest function
`fun s b => s ++ b`, secret `sec`, raw body `body` (digest `secbody`,
7 bytes): the same-length wrong header `zzzzzzz` is rejected with 401
and nothing enqueued; the 2-byte header `zz` makes the comparison
throw; the header `secbody` on topic `orders/create` (an enabled,
webhook-triggered kind) enqueues one HIGH webhook job for `orders`. -/
theorem webhook_hmac_gate_witness :
    ((fun s b => s ++ b : String → String → String) "sec" "body" ≠ "zzzzzzz") ∧
      "secbody".utf8ByteSize = "zzzzzzz".utf8ByteSize ∧
      processWebhook (fun s b => s ++ b) (some "sec") (fun _ => ⟨true, "webhook"⟩)
        ⟨some "zzzzzzz", some "body", ⟨some "1", none⟩⟩ "orders/create" =
        Except.ok ⟨401, [], []⟩ ∧
      "secbody".utf8ByteSize ≠ "zz".utf8ByteSize ∧
      processWebhook (fun s b => s ++ b) (some "sec") (fun _ => ⟨true, "webhook"⟩)
        ⟨some "zz", some "body", ⟨some "1", none⟩⟩ "orders/create" =
        Except.error "Input buffers must have the same byte length" ∧
      topicToDataObject "orders/create" = some "orders" ∧
      (processWebhook (fun s b => s ++ b) (some "sec") (fun _ => ⟨true, "webhook"⟩)
        ⟨some "secbody", some "body", ⟨some "1", none⟩⟩ "orders/create").map
        WebhookResult.enqueued =
        Except.ok [⟨"orders", JobType.webhook, JobPriority.HIGH⟩] :=
  ⟨by decide, by decide,
   webhook_hmac_gate.1 (fun s b => s ++ b) "sec" (fun _ => ⟨true, "webhook"⟩)
     ⟨some "zzzzzzz", some "body", ⟨some "1", none⟩⟩ "orders/create" "zzzzzzz" "body" rfl rfl
     (by decide) (by decide),
   by decide,
   webhook_hmac_gate.2.1 (fun s b => s ++ b) "sec" (fun _ => ⟨true, "webhook"⟩)
     ⟨some "zz", some "body", ⟨some "1", none⟩⟩ "orders/create" "zz" "body" rfl rfl
     (by decide),
   by rfl,
   (webhook_hmac_gate.2.2 (fun s b => s ++ b) "sec" (fun _ => ⟨true, "webhook"⟩)
     ⟨some "secbody", some "body", ⟨some "1", none⟩⟩ "orders/create" "secbody" "body" "orders"
     rfl rfl (by decide) (by rfl) rfl rfl).2.2⟩

/-- **C10**.  Signature verification is skipped, and the request treated
as authentic, in two cases: (a) the request carries no
`x-shopify-hmac-sha256` header (the guard `if (hmacHeader && req.rawBody)`
is simply not entered — any secret, any body); (b) no webhook secret is
configured (`verifyWebhookSignature` logs a warning and returns `true`
for any header).  In both cases, for a recognized, enabled,
webhook-triggered topic, the event is stored and a HIGH-priority webhook
job is enqueued without any signature check. -/
theorem webhook_verification_skipped :
    (∀ (hmacSha256Base64 : String → String → String) (secret : Option String)
        (getConfig : String → DataObjectCfg) (rawBody : Option String)
        (payload : WebhookPayload) (topic dataObject : String),
      topicToDataObject topic = some dataObject →
      (getConfig dataObject).enabled = true →
      (getConfig dataObject).trigger = "webhook" →
      (processWebhook hmacSha256Base64 secret getConfig ⟨none, rawBody, payload⟩ topic).map
          WebhookResult.status = Except.ok 200 ∧
        (processWebhook hmacSha256Base64 secret getConfig ⟨none, rawBody, payload⟩ topic).map
          (fun r => r.storedEvents.length) = Except.ok 1 ∧
        (processWebhook hmacSha256Base64 secret getConfig ⟨none, rawBody, payload⟩ topic).map
          WebhookResult.enqueued =
          Except.ok [⟨dataObject, JobType.webhook, JobPriority.HIGH⟩]) ∧
      (∀ (hmacSha256Base64 : String → String → String) (getConfig : String → DataObjectCfg)
          (header body : String) (payload : WebhookPayload) (topic dataObject : String),
        topicToDataObject topic = some dataObject →
        (getConfig dataObject).enabled = true →
        (getConfig dataObject).trigger = "webhook" →
        (processWebhook hmacSha256Base64 none getConfig
            ⟨some header, some body, payload⟩ topic).map WebhookResult.status =
            Except.ok 200 ∧
          (processWebhook hmacSha256Base64 none getConfig
            ⟨some header, some body, payload⟩ topic).map (fun r => r.storedEvents.length) =
            Except.ok 1 ∧
          (processWebhook hmacSha256Base64 none getConfig
            ⟨some header, some body, payload⟩ topic).map WebhookResult.enqueued =
            Except.ok [⟨dataObject, JobType.webhook, JobPriority.HIGH⟩]) := by
  constructor
  · intro hmacSha256Base64 secret getConfig rawBody payload topic dataObject htopic henabled
      htrigger
    unfold processWebhook
    simp [Except.map, processWebhookBody, htopic, henabled, htrigger]
  · intro hmacSha256Base64 getConfig header body payload topic dataObject htopic henabled
      htrigger
    unfold processWebhook verifyWebhookSignature
    simp [Except.map, processWebhookBody, htopic, henabled, htrigger]

/-- Witness for `webhook_verification_skipped`: a header-less request,
and a request with a bogus header while no secret is configured, are
both accepted on topic `orders/create` and each enqueues one HIGH
webhook job for `orders`. -/
theorem webhook_verification_skipped_witness :
    topicToDataObject "orders/create" = some "orders" ∧
      (processWebhook (fun s b => s ++ b) (some "sec") (fun _ => ⟨true, "webhook"⟩)
        ⟨none, some "body", ⟨some "1", none⟩⟩ "orders/create").map WebhookResult.enqueued =
        Except.ok [⟨"orders", JobType.webhook, JobPriority.HIGH⟩] ∧
      (processWebhook (fun s b => s ++ b) none (fun _ => ⟨true, "webhook"⟩)
        ⟨some "not-a-signature", some "body", ⟨some "1", none⟩⟩ "orders/create").map
        WebhookResult.enqueued =
        Except.ok [⟨"orders", JobType.webhook, JobPriority.HIGH⟩] :=
  ⟨by rfl,
   (webhook_verification_skipped.1 (fun s b => s ++ b) (some "sec")
     (fun _ => ⟨true, "webhook"⟩) (some "body") ⟨some "1", none⟩ "orders/create" "orders"
     (by rfl) rfl rfl).2.2,
   (webhook_verification_skipped.2 (fun s b => s ++ b) (fun _ => ⟨true, "webhook"⟩)
     "not-a-signature" "body" ⟨some "1", none⟩ "orders/create" "orders"
     (by rfl) rfl rfl).2.2⟩

end Switchboard
